import Mathlib

/-
Verification of the dolreader repository (src/dolreader/dol.py and
src/dolreader/section.py): a reader/writer for the Nintendo DOL segmented
executable container.

The Python classes are shallowly embedded as Lean structures and pure
functions.  `io.BytesIO` buffers are modelled as a list of bytes plus a
cursor (`ByteStream`); output streams written by `DolFile.save` are
modelled as a byte-content function plus a cursor (`OStream`), which keeps
every written position observable.  Python exceptions are modelled by the
`DolError` inductive, whose constructors are named after the exception
classes raised in dol.py and carry the message text built at the raise
site.  Methods that mutate the `DolFile` object in place are modelled as
functions returning the updated value; a raised exception is modelled as
`.error (e, dol)` where `dol` is the object state at the moment of the
raise (dol.py raises before mutating in every cursor operation, which the
theorems below make explicit).
-/

namespace Dol

/-- Model of io.BytesIO: an owned byte buffer plus a stream position. -/
structure ByteStream where
  buf : List Nat
  pos : Nat
  deriving DecidableEq, Inhabited, Repr

/-- BytesIO.read(n): returns up to n bytes from the current position and
advances the position by the number of bytes returned. -/
def ByteStream.read (s : ByteStream) (n : Nat) : List Nat × ByteStream :=
  let out := (s.buf.drop s.pos).take n
  (out, { s with pos := s.pos + out.length })

/-- BytesIO.write(d): overwrites at the current position, zero-filling any
gap between the end of the buffer and the position, extending as needed. -/
def ByteStream.write (s : ByteStream) (d : List Nat) : ByteStream :=
  { buf := s.buf.take s.pos ++ List.replicate (s.pos - s.buf.length) 0
      ++ d ++ s.buf.drop (s.pos + d.length),
    pos := s.pos + d.length }

/-- BytesIO.seek(p) (absolute). -/
def ByteStream.seek (s : ByteStream) (p : Nat) : ByteStream :=
  { s with pos := p }

/-- Section.SectionType from section.py: TEXT = 0, DATA = 1, UNDEFINED = -1.
In the source the tag is determined by the subclass (TextSection /
DataSection / bare Section); here it is a stored tag. -/
inductive SectionType where
  | TEXT
  | DATA
  | UNDEFINED
  deriving DecidableEq, Inhabited, Repr

/-- A section stored in a DolFile (TextSection / DataSection from
section.py, always constructed with an assigned address and offset once
inside a DolFile).  `size` is derived from the buffer, as in the source. -/
structure Section where
  sectionType : SectionType
  address : Nat
  data : ByteStream
  offset : Nat
  deriving DecidableEq, Inhabited, Repr

/-- Section.size property: len(self.data.getbuffer()). -/
def Section.size (s : Section) : Nat := s.data.buf.length

/-- A section passed to DolFile.append_section, whose address and offset
may still be None (section.py allows address=None, offset=None). -/
structure PendingSection where
  sectionType : SectionType
  address : Option Nat
  offset : Option Nat
  data : ByteStream
  deriving DecidableEq, Inhabited, Repr

/-- PendingSection.size: len(self.data.getbuffer()). -/
def PendingSection.size (s : PendingSection) : Nat := s.data.buf.length

/-- The exceptions raised in dol.py, carrying the message built at the
raise site.  UnicodeDecodeError is handled internally by read_c_string and
never escapes, so it has no constructor here. -/
inductive DolError where
  | unmappedAddressError (msg : String)
  | addressOutOfRangeError (msg : String)
  | incompleteSectionError (msg : String)
  | sectionCountFullError (msg : String)
  | notImplementedError (msg : String)
  | indexError (msg : String)
  deriving DecidableEq, Inhabited, Repr

/-- Uppercase hex rendering of a Nat, as Python f-string {:X}. -/
def natToHexUpper (n : Nat) : String :=
  ((Nat.toDigits 16 n).map Char.toUpper).asString

/-- Zero-padded 8-digit uppercase hex, as Python f-string {:08X}. -/
def natToHex8 (n : Nat) : String :=
  let s := natToHexUpper n
  if s.length < 8 then ⟨List.replicate (8 - s.length) '0'⟩ ++ s else s

/-- The DolFile object: two section tables, the BSS descriptor, the entry
point, and the virtual cursor _currLogicAddr. -/
structure DolFile where
  textSections : List Section
  dataSections : List Section
  bssAddress : Nat
  bssSize : Nat
  entryPoint : Nat
  currLogicAddr : Nat
  deriving DecidableEq, Inhabited, Repr

/-- DolFile.MaxTextSections. -/
def DolFile.MaxTextSections : Nat := 7
/-- DolFile.MaxDataSections. -/
def DolFile.MaxDataSections : Nat := 11
/-- DolFile.OffsetInfoLoc. -/
def DolFile.OffsetInfoLoc : Nat := 0
/-- DolFile.AddressInfoLoc. -/
def DolFile.AddressInfoLoc : Nat := 0x48
/-- DolFile.SizeInfoLoc. -/
def DolFile.SizeInfoLoc : Nat := 0x90
/-- DolFile.BssInfoLoc. -/
def DolFile.BssInfoLoc : Nat := 0xD8
/-- DolFile.EntryInfoLoc. -/
def DolFile.EntryInfoLoc : Nat := 0xE0

/-- DolFile.sections property: yields every text section in table order,
then every data section in table order. -/
def DolFile.sections (dol : DolFile) : List Section :=
  dol.textSections ++ dol.dataSections

/-- The loop condition of resolve_address:
section.address <= gcAddr < section.address + section.size. -/
def sectionContains (s : Section) (gcAddr : Nat) : Bool :=
  decide (s.address ≤ gcAddr ∧ gcAddr < s.address + s.size)

/-- First section (with its index in the combined table order) whose
half-open range contains gcAddr — the scan of resolve_address.  The index
is kept so that the in-place mutation done by read/write/seek can be
modelled by writing the updated section back at the same position. -/
def findContaining : List Section → Nat → Option (Nat × Section)
  | [], _ => none
  | s :: rest, gcAddr =>
    if sectionContains s gcAddr then some (0, s)
    else
      match findContaining rest gcAddr with
      | some (i, t) => some (i + 1, t)
      | none => none

/-- DolFile.resolve_address: first section containing the address, in
text-table-then-data-table order; UnmappedAddressError otherwise. -/
def DolFile.resolve_address (dol : DolFile) (gcAddr : Nat) :
    Except DolError Section :=
  match findContaining dol.sections gcAddr with
  | some (_, s) => .ok s
  | none =>
    .error (.unmappedAddressError ("Unmapped address: 0x" ++ natToHexUpper gcAddr))

/-- The loop body of seek_nearest_unmapped: one forward pass over the
sections of `dol` (the full container is kept for the resolve_address call
inside the loop; the `break` on UnmappedAddressError ends the pass). -/
def seekNearestLoop (dol : DolFile) : List Section → Nat → Nat → Nat
  | [], gcAddr, _ => gcAddr
  | s :: rest, gcAddr, buffer =>
    if s.address > gcAddr + buffer ∨ s.address + s.size < gcAddr then
      seekNearestLoop dol rest gcAddr buffer
    else
      let gcAddr := s.address + s.size
      match dol.resolve_address gcAddr with
      | .ok _ => seekNearestLoop dol rest gcAddr buffer
      | .error _ => gcAddr

/-- DolFile.seek_nearest_unmapped(gcAddr, buffer): a single pass over the
sections in table order; any section whose range is not entirely outside
[gcAddr, gcAddr + buffer] advances gcAddr to its end, and the pass stops
early as soon as the advanced gcAddr is unmapped. -/
def DolFile.seek_nearest_unmapped (dol : DolFile) (gcAddr buffer : Nat) : Nat :=
  seekNearestLoop dol dol.sections gcAddr buffer

/-- Python sorted(..., key=offset)[0]: the first section of minimal offset
(stable sort keeps the earlier one on ties). -/
def firstByOffset : List Section → Option Section
  | [] => none
  | s :: rest =>
    match firstByOffset rest with
    | none => some s
    | some b => if b.offset < s.offset then some b else some s

/-- Python sorted(..., key=offset)[-1]: the last section of maximal offset
(stable sort keeps the later one on ties). -/
def lastByOffset : List Section → Option Section
  | [] => none
  | s :: rest =>
    match lastByOffset rest with
    | none => some s
    | some b => if s.offset ≥ b.offset then some s else some b

/-- DolFile.firstSection property (IndexError on an empty table is the
`none` case). -/
def DolFile.firstSection (dol : DolFile) : Option Section :=
  firstByOffset dol.sections

/-- DolFile.lastSection property. -/
def DolFile.lastSection (dol : DolFile) : Option Section :=
  lastByOffset dol.sections

/-- DolFile.size property: offset + size of the last section by file
offset, or 0x100 for an empty container. -/
def DolFile.size (dol : DolFile) : Nat :=
  match dol.lastSection with
  | some s => s.offset + s.size
  | none => 0x100

/-- Replace the section at combined index i (text sections first), the
model of mutating the aliased section object in place. -/
def DolFile.setSection (dol : DolFile) (i : Nat) (s : Section) : DolFile :=
  if i < dol.textSections.length then
    { dol with textSections := dol.textSections.set i s }
  else
    { dol with dataSections := dol.dataSections.set (i - dol.textSections.length) s }

/-- DolFile.read(size): resolve the current address, fail if the read
would run past the end of that section, otherwise advance the cursor and
read from the section buffer.  The error carries the DolFile state at the
raise, which is the unmodified input. -/
def DolFile.read (dol : DolFile) (size : Nat) :
    Except (DolError × DolFile) (List Nat × DolFile) :=
  match findContaining dol.sections dol.currLogicAddr with
  | none =>
    .error (.unmappedAddressError
      ("Unmapped address: 0x" ++ natToHexUpper dol.currLogicAddr), dol)
  | some (i, sec) =>
    if dol.currLogicAddr + size > sec.address + sec.size then
      .error (.unmappedAddressError ("Read goes over current section"), dol)
    else
      let (bytes, d) := sec.data.read size
      .ok (bytes,
        { dol.setSection i { sec with data := d } with
          currLogicAddr := dol.currLogicAddr + size })

/-- DolFile.write(data): same boundary check as read, then write into the
section buffer and advance the cursor. -/
def DolFile.write (dol : DolFile) (data : List Nat) :
    Except (DolError × DolFile) (Unit × DolFile) :=
  match findContaining dol.sections dol.currLogicAddr with
  | none =>
    .error (.unmappedAddressError
      ("Unmapped address: 0x" ++ natToHexUpper dol.currLogicAddr), dol)
  | some (i, sec) =>
    if dol.currLogicAddr + data.length > sec.address + sec.size then
      .error (.unmappedAddressError ("Write goes over current section"), dol)
    else
      .ok ((),
        { dol.setSection i { sec with data := sec.data.write data } with
          currLogicAddr := dol.currLogicAddr + data.length })

/-- DolFile.seek(where, whence): whence 0 resolves `where` absolutely,
whence 1 resolves currLogicAddr + where; both position the backing section
buffer and set the cursor; any other whence raises NotImplementedError. -/
def DolFile.seek (dol : DolFile) (w : Nat) (whence : Nat) :
    Except (DolError × DolFile) (Unit × DolFile) :=
  if whence = 0 then
    match findContaining dol.sections w with
    | none =>
      .error (.unmappedAddressError ("Unmapped address: 0x" ++ natToHexUpper w), dol)
    | some (i, sec) =>
      .ok ((),
        { dol.setSection i { sec with data := sec.data.seek (w - sec.address) } with
          currLogicAddr := w })
  else if whence = 1 then
    match findContaining dol.sections (dol.currLogicAddr + w) with
    | none =>
      .error (.unmappedAddressError
        ("Unmapped address: 0x" ++ natToHexUpper (dol.currLogicAddr + w)), dol)
    | some (i, sec) =>
      .ok ((),
        { dol.setSection i
            { sec with data := sec.data.seek ((dol.currLogicAddr + w) - sec.address) } with
          currLogicAddr := dol.currLogicAddr + w })
  else
    .error (.notImplementedError
      ("Unsupported whence type \x27" ++ Nat.repr whence ++ "\x27"), dol)

/-- DolFile.tell. -/
def DolFile.tell (dol : DolFile) : Nat := dol.currLogicAddr

/-- DolFile.is_mapped. -/
def DolFile.is_mapped (dol : DolFile) (address : Nat) : Bool :=
  match findContaining dol.sections address with
  | some _ => true
  | none => false

/-- Big-endian 32-bit read from a byte image at position p, the model of
seek(p) followed by struct.unpack(">I", stream.read(4)).  Positions past
the end read as 0 (the source would raise struct.error on a short read;
the theorems below only ever read in-range positions). -/
def readU32be (img : List Nat) (p : Nat) : Nat :=
  img.getD p 0 * 0x1000000 + img.getD (p + 1) 0 * 0x10000
    + img.getD (p + 2) 0 * 0x100 + img.getD (p + 3) 0

/-- struct.pack(">I", v): the four big-endian bytes of v (values at or
above 2^32 would raise struct.error in the source; every value written by
the modelled code is below 2^32 or hypothesised so). -/
def u32beBytes (v : Nat) : List Nat :=
  [v / 0x1000000 % 256, v / 0x10000 % 256, v / 0x100 % 256, v % 256]

/-- One slot (of the 18) of the DolFile.__init__ loop: read the offset,
address and size fields of table slot i and build a section when
offset >= 0x100 (slots 0..6 are TextSections, 7..17 DataSections). -/
def loadSlot (img : List Nat) (startpos i : Nat) : Option Section :=
  let offset := readU32be img (DolFile.OffsetInfoLoc + 4 * i + startpos)
  let address := readU32be img (DolFile.AddressInfoLoc + 4 * i + startpos)
  let size := readU32be img (DolFile.SizeInfoLoc + 4 * i + startpos)
  if offset ≥ 0x100 then
    some { sectionType := if i < DolFile.MaxTextSections then .TEXT else .DATA,
           address := address,
           data := { buf := (img.drop (offset + startpos)).take size, pos := 0 },
           offset := offset }
  else
    none

/-- The section tables produced by the DolFile.__init__ loop: present text
slots in slot order, then present data slots in slot order. -/
def loadSections (img : List Nat) (startpos : Nat) : List Section × List Section :=
  ((List.range DolFile.MaxTextSections).filterMap (loadSlot img startpos),
   (List.range DolFile.MaxDataSections).filterMap
     (fun j => loadSlot img startpos (DolFile.MaxTextSections + j)))

/-- DolFile.__init__(stream, startpos) with a stream: parse the 18 table
slots, the BSS fields and the entry point, then position the cursor at the
first section by file offset (IndexError if no slot is present, and the
seek itself raises UnmappedAddressError if that address resolves to no
section, e.g. a zero-sized first section). -/
def DolFile.load (img : List Nat) (startpos : Nat) : Except DolError DolFile :=
  let tables := loadSections img startpos
  let base : DolFile :=
    { textSections := tables.1
      dataSections := tables.2
      bssAddress := readU32be img (DolFile.BssInfoLoc + startpos)
      bssSize := readU32be img (DolFile.BssInfoLoc + 4 + startpos)
      entryPoint := readU32be img (DolFile.EntryInfoLoc + startpos)
      currLogicAddr := 0 }
  match base.firstSection with
  | none => .error (.indexError ("list index out of range"))
  | some fs =>
    let base := { base with currLogicAddr := fs.address }
    match base.seek fs.address 0 with
    | .ok (_, d) => .ok d
    | .error (e, _) => .error e

/-- An output byte sink (the stream passed to DolFile.save): byte content
as a function of position, plus the stream position.  Only written
positions are ever compared by the theorems, so the content function fully
captures the observable bytes. -/
structure OStream where
  data : Nat → Nat
  pos : Nat

/-- stream.seek(p). -/
def OStream.seek (st : OStream) (p : Nat) : OStream :=
  { st with pos := p }

/-- stream.write(bs): overwrite bs.length bytes at the current position. -/
def OStream.write (st : OStream) (bs : List Nat) : OStream :=
  { data := fun p =>
      if st.pos ≤ p ∧ p < st.pos + bs.length then bs.getD (p - st.pos) 0
      else st.data p,
    pos := st.pos + bs.length }

/-- write_uint32(stream, v). -/
def OStream.write_uint32 (st : OStream) (v : Nat) : OStream :=
  st.write (u32beBytes v)

/-- The header-table slot index used by DolFile.save for the section at
combined iteration index i: text sections keep i, data sections get
i + (MaxTextSections - numText) = 7 + (data-array index). -/
def entryOf (s : Section) (i numText : Nat) : Nat :=
  if s.sectionType = .TEXT then i else i + (DolFile.MaxTextSections - numText)

/-- The per-section loop of DolFile.save: for each section, write its
offset/address/size into the three header tables at its slot, then write
its buffer at its file offset; an UNDEFINED section raises
IncompleteSectionError, leaving the sink in its partially written state. -/
def saveSections (startpos numText : Nat) :
    List Section → Nat → OStream → Option DolError × OStream
  | [], _, st => (none, st)
  | s :: rest, i, st =>
    if s.sectionType = .UNDEFINED then
      (some (.incompleteSectionError ("Section " ++ Nat.repr i
        ++ " is abstract, convert to DataSection or TextSection for saving")), st)
    else
      let entry := entryOf s i numText
      let st := ((st.seek (DolFile.OffsetInfoLoc + 4 * entry + startpos)).write_uint32 s.offset)
      let st := ((st.seek (DolFile.AddressInfoLoc + 4 * entry + startpos)).write_uint32 s.address)
      let st := ((st.seek (DolFile.SizeInfoLoc + 4 * entry + startpos)).write_uint32 s.size)
      let st := (st.seek (s.offset + startpos)).write s.data.buf
      saveSections startpos numText rest (i + 1) st

/-- DolFile.save(stream, startpos): zero-fill the whole container size,
write every section's header triple and payload, then the BSS fields and
entry point.  The first component is the raised exception, if any; the
second is the sink state after the call (the sink keeps all bytes written
before a raise, as a Python stream would). -/
def DolFile.save (dol : DolFile) (stream : OStream) (startpos : Nat) :
    Option DolError × OStream :=
  match saveSections startpos dol.textSections.length dol.sections 0
      ((stream.seek startpos).write (List.replicate dol.size 0)) with
  | (some e, st) => (some e, st)
  | (none, st) =>
    let st := (st.seek (DolFile.BssInfoLoc + startpos)).write_uint32 dol.bssAddress
    let st := st.write_uint32 dol.bssSize
    let st := (st.seek (DolFile.EntryInfoLoc + startpos)).write_uint32 dol.entryPoint
    (none, st.seek startpos)

/-- Python (x + 31) & -32 for nonnegative x: clear the low five bits,
i.e. round x + 31 down to a multiple of 32. -/
def alignTo32 (x : Nat) : Nat := (x + 31) / 32 * 32

/-- The f-string {section.__class__} rendering used in the
AddressOutOfRangeError message. -/
def sectionClassName : SectionType → String
  | .TEXT => "<class \x27dolreader.section.TextSection\x27>"
  | .DATA => "<class \x27dolreader.section.DataSection\x27>"
  | .UNDEFINED => "<class \x27dolreader.section.Section\x27>"

/-- DolFile.append_section: capacity check against the target table, then
assign a missing address via seek_nearest_unmapped just past the last
section of the same table (with the 32-byte-aligned size as buffer) and a
missing offset just past the last section by file offset, align the offset
to 32 bytes, validate the address window [0x80000000, 0x81200000), and
append.  Errors carry the unmodified DolFile. -/
def DolFile.append_section (dol : DolFile) (sec : PendingSection) :
    Except (DolError × DolFile) (Unit × DolFile) :=
  let prev? : Except (DolError × DolFile) Section :=
    match sec.sectionType with
    | .TEXT =>
      if dol.textSections.length ≥ DolFile.MaxTextSections then
        .error (.sectionCountFullError ("Exceeded max text section limit of "
          ++ Nat.repr DolFile.MaxTextSections), dol)
      else
        match dol.textSections.getLast? with
        | some p => .ok p
        | none => .error (.indexError ("list index out of range"), dol)
    | .DATA =>
      if dol.dataSections.length ≥ DolFile.MaxDataSections then
        -- the source message interpolates MaxTextSections here as well
        .error (.sectionCountFullError ("Exceeded max data section limit of "
          ++ Nat.repr DolFile.MaxTextSections), dol)
      else
        match dol.dataSections.getLast? with
        | some p => .ok p
        | none => .error (.indexError ("list index out of range"), dol)
    | .UNDEFINED =>
      .error (.incompleteSectionError ("Section is incomplete, convert to DataSection or TextSection nefore attaching to a DOL"), dol)
  match prev? with
  | .error e => .error e
  | .ok prevSection =>
    match dol.lastSection with
    | none => .error (.indexError ("list index out of range"), dol)
    | some finalSection =>
      let address :=
        match sec.address with
        | some a => a
        | none =>
          dol.seek_nearest_unmapped (prevSection.address + prevSection.size)
            (alignTo32 sec.size)
      let offset :=
        match sec.offset with
        | some o => o
        | none => finalSection.offset + finalSection.size
      let offset := alignTo32 offset
      if address < 0x80000000 ∨ address ≥ 0x81200000 then
        .error (.addressOutOfRangeError ("Address \x27" ++ natToHex8 address
          ++ "\x27 of this " ++ sectionClassName sec.sectionType
          ++ " is beyond scope (0x80000000 <-> 0x81200000)"), dol)
      else
        let newSec : Section :=
          { sectionType := sec.sectionType, address := address,
            data := sec.data, offset := offset }
        if sec.sectionType = .TEXT then
          .ok ((), { dol with textSections := dol.textSections ++ [newSec] })
        else
          .ok ((), { dol with dataSections := dol.dataSections ++ [newSec] })

/-- struct.unpack(">I", bs) for the 4 bytes returned by read(4). -/
def bytesToU32be (bs : List Nat) : Nat :=
  bs.foldl (fun a b => a * 256 + b) 0

/-- DolFile.insert_branch(to, _from, lk) (the parameter `to` of the source
is named toAddr here, since `to` is reserved in Lean): mask both addresses to 4-byte
alignment, seek to _from, and write the 32-bit branch word
(to - _from) & 0x3FFFFFD | 0x48000000 | lk.  Python computes to - _from as
an unbounded signed integer and takes its two's-complement AND with the
mask 0x3FFFFFD; since that mask only has bits below 26, the result equals
the mask applied to (to - _from) mod 2^26, which is how it is written
here (Lean's Int has no Python-style bitwise AND). -/
def DolFile.insert_branch (dol : DolFile) (toAddr _from : Nat) (lk : Bool) :
    Except (DolError × DolFile) (Unit × DolFile) :=
  let _from := _from &&& 0xFFFFFFFC
  let toAddr := toAddr &&& 0xFFFFFFFC
  match dol.seek _from 0 with
  | .error e => .error e
  | .ok (_, dol) =>
    let word := ((((toAddr : Int) - (_from : Int)) % 0x4000000).toNat &&& 0x3FFFFFD)
      ||| 0x48000000 ||| (if lk then 1 else 0)
    dol.write (u32beBytes word)

/-- DolFile.extract_branch_addr(bAddr): read the word at bAddr, classify
by the top byte (below 0x48 means conditional), sign-extend the immediate
with the literal masks of the source (0xFFFD / 0x3FFFFFD), and return
(bAddr + offset, conditional).  The destination is an Int because the
sign-extended offset may be negative. -/
def DolFile.extract_branch_addr (dol : DolFile) (bAddr : Nat) :
    Except (DolError × DolFile) ((Int × Bool) × DolFile) :=
  match dol.seek bAddr 0 with
  | .error e => .error e
  | .ok (_, dol) =>
    match dol.read 4 with
    | .error e => .error e
    | .ok (bs, dol) =>
      let ppc := bytesToU32be bs
      let conditional := decide ((ppc >>> 24) &&& 0xFF < 0x48)
      let offset : Int :=
        if conditional then
          if ppc &&& 0x8000 ≠ 0 then ((ppc &&& 0xFFFD : Nat) : Int) - 0x10000
          else ((ppc &&& 0xFFFD : Nat) : Int)
        else
          if ppc &&& 0x2000000 ≠ 0 then ((ppc &&& 0x3FFFFFD : Nat) : Int) - 0x4000000
          else ((ppc &&& 0x3FFFFFD : Nat) : Int)
      .ok (((bAddr : Int) + offset, conditional), dol)

/-- char.decode("ascii") for a one-byte bytes object: bytes below 0x80
decode to the character with that code point, anything else raises
UnicodeDecodeError.  The source takes an arbitrary codec; the model fixes
the default "ascii" codec, for which this is exact. -/
def asciiDecode (bs : List Nat) : Option (List Char) :=
  if bs.all (fun b => b < 128) then some (bs.map Char.ofNat) else none

/-- The values interpolated into the message printed by read_c_string when
a decode fails: the offending bytes, the running character count, and
address + length.  The source prints and returns; the model returns the
report alongside the string. -/
structure DecodeFailureReport where
  char : List Nat
  pos : Nat
  address : Nat
  deriving DecidableEq, Inhabited, Repr

/-- Upper bound over all section ends, used to size the fuel of the
read_c_string loop: every successful read(1) strictly advances the cursor
and requires it to stay below some section end, so the while loop performs
fewer than maxSectionEnd iterations. -/
def maxSectionEnd (dol : DolFile) : Nat :=
  dol.sections.foldl (fun m s => max m (s.address + s.size)) 0

/-- The while loop of read_c_string.  Python strings are modelled as lists
of characters; string[:-1] is List.dropLast.  `fuel` is a strict upper
bound on the remaining loop iterations (see maxSectionEnd); the fuel = 0
branch is unreachable whenever fuel starts at least maxSectionEnd + 1. -/
def readCStringLoop (address maxlen : Nat) :
    Nat → DolFile → Nat → List Char →
    Except (DolError × DolFile) ((List Char × Option DecodeFailureReport) × DolFile)
  | 0, dol, _, string => .ok ((string, none), dol)
  | fuel + 1, dol, length, string =>
    match dol.read 1 with
    | .error e => .error e
    | .ok (char, dol) =>
      if char = [0] then .ok ((string, none), dol)
      else
        match asciiDecode char with
        | none =>
          .ok ((string.dropLast,
            some { char := char, pos := length, address := address + length }), dol)
        | some cs =>
          let string := string ++ cs
          let length := length + 1
          if length > maxlen - 1 ∧ maxlen ≠ 0 then .ok ((string, none), dol)
          else readCStringLoop address maxlen fuel dol length string

/-- DolFile.read_c_string(address, maxlen): seek to the address, then read
byte by byte until a NUL, the maxlen cutoff, or a decode failure (which
returns the string built so far minus its last character, together with
the reported failure data). -/
def DolFile.read_c_string (dol : DolFile) (address maxlen : Nat) :
    Except (DolError × DolFile) ((List Char × Option DecodeFailureReport) × DolFile) :=
  match dol.seek address 0 with
  | .error e => .error e
  | .ok (_, dol) => readCStringLoop address maxlen (maxSectionEnd dol + 1) dol 0 []

/-! Concrete containers used by the witnesses and counterexamples below. -/

/-- A fresh all-zero output sink. -/
def freshSink : OStream := { data := fun _ => 0, pos := 0 }

/-- An output sink whose every byte is 0xFF, to make writes observable. -/
def sinkFF : OStream := { data := fun _ => 0xFF, pos := 0 }

/-- Two overlapping text sections (first-match tie-break demonstration). -/
def secA : Section :=
  { sectionType := .TEXT, address := 0x80000100,
    data := { buf := List.replicate 0x10 1, pos := 0 }, offset := 0x100 }

/-- Overlaps secA. -/
def secB : Section :=
  { sectionType := .TEXT, address := 0x80000100,
    data := { buf := List.replicate 0x20 2, pos := 0 }, offset := 0x110 }

/-- Container with two overlapping text sections. -/
def dolOverlap : DolFile :=
  { textSections := [secA, secB], dataSections := [],
    bssAddress := 0, bssSize := 0, entryPoint := 0x80003000,
    currLogicAddr := 0x80000100 }

/-- Text section at 0x80000020 (listed first). -/
def secT2 : Section :=
  { sectionType := .TEXT, address := 0x80000020,
    data := { buf := List.replicate 0x10 1, pos := 0 }, offset := 0x100 }

/-- Data section at 0x80000010, a lower address than the text section. -/
def secD2 : Section :=
  { sectionType := .DATA, address := 0x80000010,
    data := { buf := List.replicate 0x10 2, pos := 0 }, offset := 0x200 }

/-- Container whose table order does not follow address order: the text
table holds [0x80000020, 0x80000030) and the data table
[0x80000010, 0x80000020). -/
def dolC4 : DolFile :=
  { textSections := [secT2], dataSections := [secD2],
    bssAddress := 0, bssSize := 0, entryPoint := 0x80003000,
    currLogicAddr := 0x80000020 }

/-- Text section [0x80000020, 0x80000040) at file offset 0x100. -/
def secT1 : Section :=
  { sectionType := .TEXT, address := 0x80000020,
    data := { buf := List.replicate 0x20 1, pos := 0 }, offset := 0x100 }

/-- Data section [0x80000060, 0x80000080) at file offset 0x200, leaving a
0x20-byte address gap after the text section. -/
def secD1 : Section :=
  { sectionType := .DATA, address := 0x80000060,
    data := { buf := List.replicate 0x20 2, pos := 0 }, offset := 0x200 }

/-- Container with a 0x20-byte hole between its text and data sections. -/
def dolC5 : DolFile :=
  { textSections := [secT1], dataSections := [secD1],
    bssAddress := 0, bssSize := 0, entryPoint := 0x80003000,
    currLogicAddr := 0x80000020 }

/-- A 0x40-byte section to append with no explicit address or offset: too
large for the hole after the text section. -/
def pendC5 : PendingSection :=
  { sectionType := .TEXT, address := none, offset := none,
    data := { buf := List.replicate 0x40 3, pos := 0 } }

/-- The instruction word the claim says insertBranch(to, from, link=false)
writes: ((to - from) & 0x03FFFFFC) | 0x48000000, with Python's
two's-complement AND of the possibly negative difference expressed through
mod 2^26 (the mask has no bits at or above bit 26). -/
def claimBranchWord (toAddr _from : Nat) : Nat :=
  (((toAddr : Int) - (_from : Int)) % 0x4000000).toNat &&& 0x3FFFFFC ||| 0x48000000

/-- Observer projecting the (destination, conditional) pair out of an
extract_branch_addr result. -/
def branchResult
    (r : Except (DolError × DolFile) ((Int × Bool) × DolFile)) : Option (Int × Bool) :=
  match r with
  | .ok (v, _) => some v
  | .error _ => none

/-- A 16-byte text section at 0x80001000 for the branch round-trip. -/
def secC6 : Section :=
  { sectionType := .TEXT, address := 0x80001000,
    data := { buf := List.replicate 16 0, pos := 0 }, offset := 0x100 }

/-- Container for the branch round-trip witness. -/
def dolC6 : DolFile :=
  { textSections := [secC6], dataSections := [],
    bssAddress := 0, bssSize := 0, entryPoint := 0x80003000,
    currLogicAddr := 0x80001000 }

/-- Big-endian 32-bit observer over an output sink, reading back a header
field written by save. -/
def readOutU32 (st : OStream) (p : Nat) : Nat :=
  st.data p * 0x1000000 + st.data (p + 1) * 0x10000 + st.data (p + 2) * 0x100 + st.data (p + 3)

/-- The three 4-byte header-field ranges (offset, address, size tables)
belonging to slot e. -/
def fieldPos (e p : Nat) : Prop :=
  (DolFile.OffsetInfoLoc + 4 * e ≤ p ∧ p < DolFile.OffsetInfoLoc + 4 * e + 4) ∨
  (DolFile.AddressInfoLoc + 4 * e ≤ p ∧ p < DolFile.AddressInfoLoc + 4 * e + 4) ∨
  (DolFile.SizeInfoLoc + 4 * e ≤ p ∧ p < DolFile.SizeInfoLoc + 4 * e + 4)

/-- Position p is written by the saveSections loop over secs starting at
iteration index i: either a header field of some section's slot, or inside
some section's payload range. -/
def writesTo (numText : Nat) (secs : List Section) (i p : Nat) : Prop :=
  ∃ k, ∃ hk : k < secs.length,
    fieldPos (entryOf (secs.get ⟨k, hk⟩) (i + k) numText) p ∨
    ((secs.get ⟨k, hk⟩).offset ≤ p ∧
      p < (secs.get ⟨k, hk⟩).offset + (secs.get ⟨k, hk⟩).data.buf.length)

/-- A pending text section with an explicit address below 0x80000000. -/
def pendBad : PendingSection :=
  { sectionType := .TEXT, address := some 0x70000000, offset := some 0x300,
    data := { buf := [1, 2, 3, 4], pos := 0 } }

/-- An 8-byte text section at 0x80003000 whose buffer position is 2. -/
def secC3 : Section :=
  { sectionType := .TEXT, address := 0x80003000,
    data := { buf := [10, 11, 12, 13, 14, 15, 16, 17], pos := 2 }, offset := 0x100 }

/-- Like secC3 but with the buffer position advanced to 4, the state after
a successful 2-byte read. -/
def secC3after : Section :=
  { sectionType := .TEXT, address := 0x80003000,
    data := { buf := [10, 11, 12, 13, 14, 15, 16, 17], pos := 4 }, offset := 0x100 }

/-- A small positioned container: one text section of 8 bytes at
0x80003000, cursor at 0x80003002 with the buffer position in sync. -/
def dolC3 : DolFile :=
  { textSections := [secC3],
    dataSections := [],
    bssAddress := 0, bssSize := 0, entryPoint := 0x80003000,
    currLogicAddr := 0x80003002 }

/-- A concrete 0x104-byte container image: slot 0 holds offset 0x100,
address 0x80003000, size 4; BSS = (0x11, 0x22), entry point 0x80003000;
payload bytes 9, 8, 7, 6. -/
def imgC2 : List Nat :=
  (((((((((List.replicate 0x100 0).set 2 1).set 0x48 0x80).set 0x4A 0x30).set
    0x93 4).set 0xD8 0x11).set 0xDC 0x22).set 0xE0 0x80).set 0xE2 0x30)
    ++ [9, 8, 7, 6]

/-- The container produced by loading imgC2. -/
def dolC2 : DolFile :=
  match DolFile.load imgC2 0 with
  | .ok d => d
  | .error _ => default

/-- The single section of dolC2. -/
def secC2 : Section :=
  { sectionType := .TEXT, address := 0x80003000,
    data := { buf := [9, 8, 7, 6], pos := 0 }, offset := 0x100 }

/-! Helper lemmas about the section scan. -/

theorem findContaining_none_iff (l : List Section) (a : Nat) :
    findContaining l a = none ↔ ∀ s ∈ l, sectionContains s a = false := by
  induction l with
  | nil => simp [findContaining]
  | cons s rest ih =>
    by_cases hs : sectionContains s a
    · simp [findContaining, hs]
    · cases hfc : findContaining rest a with
      | none =>
        simp only [findContaining, hs, if_false, hfc]
        simp only [List.mem_cons]
        constructor
        · intro _ t ht
          rcases ht with rfl | ht
          · exact Bool.eq_false_iff.mpr hs
          · exact (ih.mp hfc) t ht
        · intro _; rfl
      | some p =>
        obtain ⟨i, t⟩ := p
        simp only [findContaining, hs, if_false, hfc]
        constructor
        · intro h; exact absurd h (by simp)
        · intro h
          have : findContaining rest a = none :=
            ih.mpr (fun u hu => h u (List.mem_cons_of_mem _ hu))
          rw [this] at hfc; exact absurd hfc (by simp)

theorem findContaining_some (l : List Section) (a i : Nat) (s : Section)
    (h : findContaining l a = some (i, s)) :
    i < l.length ∧ l.getD i default = s ∧ sectionContains s a = true ∧
      ∀ j, j < i → sectionContains (l.getD j default) a = false := by
  induction l generalizing i with
  | nil => simp [findContaining] at h
  | cons hd rest ih =>
    by_cases hsc : sectionContains hd a
    · simp only [findContaining, hsc, if_true, Option.some.injEq, Prod.mk.injEq] at h
      obtain ⟨rfl, rfl⟩ := h
      refine ⟨by simp, rfl, hsc, ?_⟩
      intro j hj; omega
    · simp only [findContaining, hsc, if_false] at h
      cases hfc : findContaining rest a with
      | none => rw [hfc] at h; exact absurd h (by simp)
      | some p =>
        obtain ⟨i0, t⟩ := p
        rw [hfc] at h
        simp only [Option.some.injEq, Prod.mk.injEq] at h
        obtain ⟨rfl, rfl⟩ := h
        obtain ⟨h1, h2, h3, h4⟩ := ih i0 hfc
        refine ⟨by simpa using h1, by simpa using h2, h3, ?_⟩
        intro j hj
        cases j with
        | zero => simpa using Bool.eq_false_iff.mpr hsc
        | succ j0 =>
          rw [List.getD_cons_succ]
          exact h4 j0 (by omega)

theorem findContaining_first (l : List Section) (a i : Nat)
    (hi : i < l.length) (hc : sectionContains (l.getD i default) a = true)
    (hmin : ∀ j, j < i → sectionContains (l.getD j default) a = false) :
    findContaining l a = some (i, l.getD i default) := by
  induction l generalizing i with
  | nil => simp at hi
  | cons hd rest ih =>
    cases i with
    | zero =>
      rw [List.getD_cons_zero] at hc ⊢
      simp [findContaining, hc]
    | succ i0 =>
      have hhd : sectionContains hd a = false := by
        have := hmin 0 (by omega)
        simpa using this
      rw [List.getD_cons_succ] at hc ⊢
      have := ih i0 (by simpa using hi) hc
        (fun j hj => by
          have := hmin (j + 1) (by omega)
          simpa using this)
      simp [findContaining, hhd, this]

theorem findContaining_set (l : List Section) (a i : Nat) (s s2 : Section)
    (h : findContaining l a = some (i, s))
    (haddr : s2.address = s.address) (hsize : s2.data.buf.length = s.data.buf.length) :
    findContaining (l.set i s2) a = some (i, s2) := by
  obtain ⟨h1, h2, h3, h4⟩ := findContaining_some l a i s h
  have hlen : (l.set i s2).length = l.length := List.length_set l i s2
  have hgetD : ∀ j, j ≠ i → (l.set i s2).getD j default = l.getD j default := by
    intro j hj
    simp only [List.getD_eq_getElem?_getD, List.getElem?_set]
    simp [hj.symm]
  have hgeti : (l.set i s2).getD i default = s2 := by
    simp only [List.getD_eq_getElem?_getD, List.getElem?_set]
    simp [h1]
  have hc2 : sectionContains s2 a = true := by
    unfold sectionContains Section.size at h3 ⊢
    rw [haddr, hsize]
    exact h3
  have := findContaining_first (l.set i s2) a i (by omega)
    (by rw [hgeti]; exact hc2)
    (fun j hj => by rw [hgetD j (by omega)]; exact h4 j hj)
  rw [hgeti] at this
  exact this

/-- C1: resolve(addr) returns the first section in text-then-data table
order whose half-open range [address, address + size) contains addr, and
fails with UnmappedAddressError when no section's range does. -/
theorem c1_resolve_address_first_match (dol : DolFile) (gcAddr : Nat) :
    ((∀ s ∈ dol.sections, sectionContains s gcAddr = false) →
      dol.resolve_address gcAddr =
        .error (.unmappedAddressError ("Unmapped address: 0x" ++ natToHexUpper gcAddr))) ∧
    (∀ i, i < dol.sections.length →
      sectionContains (dol.sections.getD i default) gcAddr = true →
      (∀ j, j < i → sectionContains (dol.sections.getD j default) gcAddr = false) →
      dol.resolve_address gcAddr = .ok (dol.sections.getD i default)) := by
  constructor
  · intro h
    have := (findContaining_none_iff dol.sections gcAddr).mpr h
    unfold DolFile.resolve_address
    rw [this]
  · intro i hi hc hmin
    have := findContaining_first dol.sections gcAddr i hi hc hmin
    unfold DolFile.resolve_address
    rw [this]

/-- Witness for C1 on a concrete container with two sections of equal
address (table order breaks the tie towards the first) and an unmapped
address. -/
theorem c1_witness :
    dolOverlap.resolve_address 0x80000108 = .ok secA ∧
    dolOverlap.resolve_address 0x90000000 =
      .error (.unmappedAddressError ("Unmapped address: 0x" ++ natToHexUpper 0x90000000)) := by
  constructor
  · exact (c1_resolve_address_first_match dolOverlap 0x80000108).2 0 (by decide)
      (by decide) (fun j hj => by omega)
  · exact (c1_resolve_address_first_match dolOverlap 0x90000000).1 (by decide)

/-- C10 (implicit): every failing cursor operation — seek to an unmapped
target (absolute or relative), seek with an unsupported whence, or a
read/write whose resolve or boundary check fails — raises before mutating
anything: the DolFile carried by the error is exactly the input state, so
the cursor keeps its prior value and no section buffer is touched or
consumed. -/
theorem c10_failed_cursor_ops_preserve_state (dol : DolFile)
    (w n whence : Nat) (data : List Nat) :
    (findContaining dol.sections w = none →
      dol.seek w 0 =
        .error (.unmappedAddressError ("Unmapped address: 0x" ++ natToHexUpper w), dol)) ∧
    (findContaining dol.sections (dol.currLogicAddr + w) = none →
      dol.seek w 1 =
        .error (.unmappedAddressError
          ("Unmapped address: 0x" ++ natToHexUpper (dol.currLogicAddr + w)), dol)) ∧
    (whence ≠ 0 → whence ≠ 1 →
      dol.seek w whence =
        .error (.notImplementedError
          ("Unsupported whence type \x27" ++ Nat.repr whence ++ "\x27"), dol)) ∧
    (findContaining dol.sections dol.currLogicAddr = none →
      dol.read n =
        .error (.unmappedAddressError
          ("Unmapped address: 0x" ++ natToHexUpper dol.currLogicAddr), dol) ∧
      dol.write data =
        .error (.unmappedAddressError
          ("Unmapped address: 0x" ++ natToHexUpper dol.currLogicAddr), dol)) ∧
    (∀ i sec, findContaining dol.sections dol.currLogicAddr = some (i, sec) →
      (dol.currLogicAddr + n > sec.address + sec.size →
        dol.read n =
          .error (.unmappedAddressError ("Read goes over current section"), dol)) ∧
      (dol.currLogicAddr + data.length > sec.address + sec.size →
        dol.write data =
          .error (.unmappedAddressError ("Write goes over current section"), dol))) := by
  refine ⟨?_, ?_, ?_, ?_, ?_⟩
  · intro h
    unfold DolFile.seek
    rw [if_pos rfl, h]
  · intro h
    unfold DolFile.seek
    rw [if_neg (by omega), if_pos rfl, h]
  · intro h0 h1
    unfold DolFile.seek
    rw [if_neg h0, if_neg h1]
  · intro h
    constructor
    · unfold DolFile.read
      rw [h]
    · unfold DolFile.write
      rw [h]
  · intro i sec h
    constructor
    · intro hb
      unfold DolFile.read
      rw [h]
      simp only [if_pos hb]
    · intro hb
      unfold DolFile.write
      rw [h]
      simp only [if_pos hb]

/-- Witness for C10 at a concrete container: failed absolute seek, failed
relative seek, unsupported whence, and a boundary-exceeding read and write
all return the container unchanged. -/
theorem c10_witness :
    dolC3.seek 0x90000000 0 =
      .error (.unmappedAddressError
        ("Unmapped address: 0x" ++ natToHexUpper 0x90000000), dolC3) ∧
    dolC3.seek 2 5 =
      .error (.notImplementedError
        ("Unsupported whence type \x275\x27"), dolC3) ∧
    dolC3.read 7 =
      .error (.unmappedAddressError ("Read goes over current section"), dolC3) ∧
    dolC3.write [1, 2, 3, 4, 5, 6, 7] =
      .error (.unmappedAddressError ("Write goes over current section"), dolC3) := by
  have h := c10_failed_cursor_ops_preserve_state dolC3 0x90000000 7 5 [1, 2, 3, 4, 5, 6, 7]
  refine ⟨h.1 (by decide), ?_, ?_, ?_⟩
  · have h3 := (c10_failed_cursor_ops_preserve_state dolC3 2 7 5 [1, 2, 3, 4, 5, 6, 7]).2.2.1
      (by decide) (by decide)
    simpa using h3
  · exact (h.2.2.2.2 0 secC3 (by decide)).1 (by decide)
  · exact (h.2.2.2.2 0 secC3 (by decide)).2 (by decide)

/-- C3: with the cursor positioned in a section (resolve finds (i, sec)
and the section buffer position is in sync with the cursor), read(n) fails
with the boundary error — raised as UnmappedAddressError("Read goes over
current section") — exactly when currentAddress + n would exceed the
section end; otherwise it returns the n bytes of the section buffer at
local offset currentAddress - address and advances the cursor by n.
write(data) performs the same boundary check for data.length bytes and on
success writes the buffer in place and advances the cursor. -/
theorem c3_read_write_boundary (dol : DolFile) (i n : Nat) (sec : Section)
    (data : List Nat)
    (hres : findContaining dol.sections dol.currLogicAddr = some (i, sec))
    (hpos : sec.data.pos = dol.currLogicAddr - sec.address) :
    (dol.currLogicAddr + n > sec.address + sec.size →
      dol.read n =
        .error (.unmappedAddressError ("Read goes over current section"), dol)) ∧
    (dol.currLogicAddr + n ≤ sec.address + sec.size →
      ((sec.data.buf.drop (dol.currLogicAddr - sec.address)).take n).length = n ∧
      dol.read n =
        .ok ((sec.data.buf.drop (dol.currLogicAddr - sec.address)).take n,
          { dol.setSection i
              { sec with data := { buf := sec.data.buf, pos := sec.data.pos + n } } with
            currLogicAddr := dol.currLogicAddr + n })) ∧
    (dol.currLogicAddr + data.length > sec.address + sec.size →
      dol.write data =
        .error (.unmappedAddressError ("Write goes over current section"), dol)) ∧
    (dol.currLogicAddr + data.length ≤ sec.address + sec.size →
      dol.write data =
        .ok ((),
          { dol.setSection i { sec with data := sec.data.write data } with
            currLogicAddr := dol.currLogicAddr + data.length })) := by
  have hcon := (findContaining_some _ _ _ _ hres).2.2.1
  have haddr : sec.address ≤ dol.currLogicAddr ∧
      dol.currLogicAddr < sec.address + sec.size := by
    simpa [sectionContains] using hcon
  refine ⟨?_, ?_, ?_, ?_⟩
  · intro hb
    simp only [DolFile.read, hres, if_pos hb]
  · intro hb
    have hlen : ((sec.data.buf.drop (dol.currLogicAddr - sec.address)).take n).length = n := by
      rw [List.length_take, List.length_drop]
      have : sec.size = sec.data.buf.length := rfl
      omega
    refine ⟨hlen, ?_⟩
    simp only [DolFile.read, hres, if_neg (by omega : ¬ dol.currLogicAddr + n > sec.address + sec.size)]
    simp only [ByteStream.read, hpos, hlen]
  · intro hb
    simp only [DolFile.write, hres, if_pos hb]
  · intro hb
    simp only [DolFile.write, hres,
      if_neg (by omega : ¬ dol.currLogicAddr + data.length > sec.address + sec.size)]

/-- Witness for C3: a 2-byte read from the positioned concrete container
succeeds with the bytes at local offset 2, and a 7-byte read from the same
position fails on the section boundary. -/
theorem c3_witness :
    dolC3.read 2 =
      .ok ([12, 13],
        { dolC3.setSection 0 secC3after with currLogicAddr := 0x80003004 }) ∧
    dolC3.read 7 =
      .error (.unmappedAddressError ("Read goes over current section"), dolC3) := by
  constructor
  · have h := (c3_read_write_boundary dolC3 0 2 secC3
      [] (by decide) (by decide)).2.1 (by decide)
    have h2 := h.2
    refine Eq.trans h2 ?_
    rfl
  · exact (c3_read_write_boundary dolC3 0 7 secC3
      [] (by decide) (by decide)).1 (by decide)

/-- Counterexample for C4: in dolC4 the data section [0x80000010, 0x80000020)
is listed after the text section [0x80000020, 0x80000030).  The claim says
nearestUnmapped(0x80000010, 0) returns the lowest free address at or above
0x80000010, which is 0x80000030; the single pass instead stops at
0x80000020, an address that is still mapped (inside the text section). -/
theorem c4_counterexample :
    dolC4.seek_nearest_unmapped 0x80000010 0 = 0x80000020 ∧
    dolC4.is_mapped 0x80000020 = true ∧
    dolC4.is_mapped 0x80000030 = false := by
  refine ⟨by decide, by decide, by decide⟩

/-- Unfolding equation for the cons case of seekNearestLoop. -/
theorem seekNearestLoop_cons (dol : DolFile) (s : Section) (rest : List Section)
    (g buffer : Nat) :
    seekNearestLoop dol (s :: rest) g buffer =
      if s.address > g + buffer ∨ s.address + s.size < g then
        seekNearestLoop dol rest g buffer
      else
        match dol.resolve_address (s.address + s.size) with
        | .ok _ => seekNearestLoop dol rest (s.address + s.size) buffer
        | .error _ => s.address + s.size := rfl

/-- The per-pass list lemma behind the amended C4: the single pass returns
an address at least the starting one that is either the start or some
visited section's end, and returns the start unchanged when every section
in the list is skipped by the loop's interval test. -/
theorem seekNearestLoop_spec (dol : DolFile) (l : List Section) (g buffer : Nat) :
    g ≤ seekNearestLoop dol l g buffer ∧
    (seekNearestLoop dol l g buffer = g ∨
      (l.any (fun s => seekNearestLoop dol l g buffer == s.address + s.size)) = true) ∧
    ((∀ s ∈ l, s.address > g + buffer ∨ s.address + s.size < g) →
      seekNearestLoop dol l g buffer = g) := by
  induction l generalizing g with
  | nil => simp [seekNearestLoop]
  | cons s rest ih =>
    by_cases hskip : s.address > g + buffer ∨ s.address + s.size < g
    · have hl : seekNearestLoop dol (s :: rest) g buffer =
          seekNearestLoop dol rest g buffer := by
        rw [seekNearestLoop_cons, if_pos hskip]
      obtain ⟨ih1, ih2, ih3⟩ := ih g
      refine ⟨by omega, ?_, ?_⟩
      · rw [hl]
        rcases ih2 with h | h
        · exact Or.inl h
        · right
          rw [List.any_cons, h, Bool.or_true]
      · intro hall
        rw [hl]
        exact ih3 (fun t ht => hall t (List.mem_cons_of_mem _ ht))
    · have hg2 : g ≤ s.address + s.size := by omega
      cases hres : dol.resolve_address (s.address + s.size) with
      | ok t =>
        have hl : seekNearestLoop dol (s :: rest) g buffer =
            seekNearestLoop dol rest (s.address + s.size) buffer := by
          rw [seekNearestLoop_cons, if_neg hskip, hres]
        obtain ⟨ih1, ih2, ih3⟩ := ih (s.address + s.size)
        refine ⟨by omega, ?_, ?_⟩
        · right
          rw [hl, List.any_cons]
          rcases ih2 with h | h
          · rw [h]
            simp
          · rw [h, Bool.or_true]
        · intro hall
          exact absurd (hall s (List.mem_cons_self s rest)) hskip
      | error e =>
        have hl : seekNearestLoop dol (s :: rest) g buffer = s.address + s.size := by
          rw [seekNearestLoop_cons, if_neg hskip, hres]
        refine ⟨by omega, ?_, ?_⟩
        · right
          rw [hl, List.any_cons]
          simp
        · intro hall
          exact absurd (hall s (List.mem_cons_self s rest)) hskip

/-- C4 amended: seek_nearest_unmapped performs a single forward pass over
the sections in table order, advancing the address to the end of any
section whose range intersects the closed interval
[addr, addr + bufferSize] and stopping early once the advanced address is
unmapped.  The result is at least the starting address, is either the
starting address or the end address of some section, and equals the
starting address when no section intersects the interval.  (It is not
guaranteed to be unmapped, nor to leave room for bufferSize bytes —
c4_counterexample.) -/
theorem c4_seek_nearest_unmapped_amended (dol : DolFile) (gcAddr buffer : Nat) :
    gcAddr ≤ dol.seek_nearest_unmapped gcAddr buffer ∧
    (dol.seek_nearest_unmapped gcAddr buffer = gcAddr ∨
      (dol.sections.any
        (fun s => dol.seek_nearest_unmapped gcAddr buffer == s.address + s.size)) = true) ∧
    ((∀ s ∈ dol.sections, s.address > gcAddr + buffer ∨ s.address + s.size < gcAddr) →
      dol.seek_nearest_unmapped gcAddr buffer = gcAddr) :=
  seekNearestLoop_spec dol dol.sections gcAddr buffer

/-- Witness for the amended C4 on the concrete container: the colliding
result is the end of a visited section, and a start beyond every section
is returned unchanged. -/
theorem c4_witness :
    0x80000010 ≤ dolC4.seek_nearest_unmapped 0x80000010 0 ∧
    (dolC4.seek_nearest_unmapped 0x80000010 0 = 0x80000010 ∨
      (dolC4.sections.any
        (fun s => dolC4.seek_nearest_unmapped 0x80000010 0 == s.address + s.size)) = true) ∧
    dolC4.seek_nearest_unmapped 0x80000500 0x10 = 0x80000500 := by
  refine ⟨(c4_seek_nearest_unmapped_amended dolC4 0x80000010 0).1,
    (c4_seek_nearest_unmapped_amended dolC4 0x80000010 0).2.1,
    (c4_seek_nearest_unmapped_amended dolC4 0x80000500 0x10).2.2 (by decide)⟩

/-- The section actually appended by append_section in the C5
counterexample: the single-pass address assignment lands on 0x80000040
even though the 0x40-byte payload then overlaps the data section at
0x80000060. -/
def secC5new : Section :=
  { sectionType := .TEXT, address := 0x80000040,
    data := { buf := List.replicate 0x40 3, pos := 0 }, offset := 0x220 }

/-- The container produced by the C5 counterexample append. -/
def dolC5after : DolFile :=
  { dolC5 with textSections := [secT1, secC5new] }

/-- Counterexample for C5: appending a 0x40-byte text section with no
explicit address to dolC5 (one text section, one data section, spare
capacity) succeeds and assigns address 0x80000040, but the assigned range
[0x80000040, 0x80000080) overlaps the existing data section
[0x80000060, 0x80000080): address 0x80000060 lies in both. -/
theorem c5_counterexample :
    dolC5.append_section pendC5 = .ok ((), dolC5after) ∧
    sectionContains secD1 0x80000060 = true ∧
    secC5new.address ≤ 0x80000060 ∧
    0x80000060 < secC5new.address + secC5new.size ∧
    secD1 ∈ dolC5.sections := by
  refine ⟨rfl, by decide, by decide, by decide, by decide⟩

/-- C5 amended: append_section assigns a missing address by the
single-pass seek_nearest_unmapped, which may overlap existing sections
(c5_counterexample); what the code does guarantee is the address window:
every section of the container after a successful append is either an old
section or has its start address inside [0x80000000, 0x81200000), and an
explicitly assigned address outside that window makes append_section fail
with AddressOutOfRangeError, leaving the container unchanged. -/
theorem c5_append_section_amended (dol : DolFile) (sec : PendingSection) :
    (∀ dol2, dol.append_section sec = .ok ((), dol2) →
      ∀ s2 ∈ dol2.sections, s2 ∈ dol.sections ∨
        (0x80000000 ≤ s2.address ∧ s2.address < 0x81200000)) ∧
    (∀ a prev fin, sec.sectionType = .TEXT →
      dol.textSections.length < DolFile.MaxTextSections →
      dol.textSections.getLast? = some prev →
      dol.lastSection = some fin →
      sec.address = some a → (a < 0x80000000 ∨ 0x81200000 ≤ a) →
      dol.append_section sec =
        .error (.addressOutOfRangeError ("Address \x27" ++ natToHex8 a
          ++ "\x27 of this " ++ sectionClassName sec.sectionType
          ++ " is beyond scope (0x80000000 <-> 0x81200000)"), dol)) := by
  constructor
  · intro dol2 hok s2 hs2
    unfold DolFile.append_section at hok
    obtain ⟨st, addr?, off?, dat⟩ := sec
    cases st with
    | UNDEFINED => exact absurd hok (by simp)
    | TEXT =>
      simp only at hok
      by_cases hcap : dol.textSections.length ≥ DolFile.MaxTextSections
      · rw [if_pos hcap] at hok
        exact absurd hok (by simp)
      · rw [if_neg hcap] at hok
        cases hgl : dol.textSections.getLast? with
        | none => rw [hgl] at hok; exact absurd hok (by simp)
        | some prev =>
          rw [hgl] at hok
          simp only at hok
          cases hls : dol.lastSection with
          | none => rw [hls] at hok; exact absurd hok (by simp)
          | some fin =>
            rw [hls] at hok
            simp only at hok
            split at hok
            · exact absurd hok (by simp)
            · rename_i hwin
              simp only [if_true] at hok
              simp only [Except.ok.injEq, Prod.mk.injEq, true_and] at hok
              subst hok
              simp only [DolFile.sections, List.mem_append] at hs2
              rcases hs2 with (hs2 | hs2) | hs2
              · exact Or.inl (List.mem_append.mpr (Or.inl hs2))
              · right
                simp only [List.mem_singleton] at hs2
                subst hs2
                simp only
                omega
              · exact Or.inl (List.mem_append.mpr (Or.inr hs2))
    | DATA =>
      simp only at hok
      by_cases hcap : dol.dataSections.length ≥ DolFile.MaxDataSections
      · rw [if_pos hcap] at hok
        exact absurd hok (by simp)
      · rw [if_neg hcap] at hok
        cases hgl : dol.dataSections.getLast? with
        | none => rw [hgl] at hok; exact absurd hok (by simp)
        | some prev =>
          rw [hgl] at hok
          simp only at hok
          cases hls : dol.lastSection with
          | none => rw [hls] at hok; exact absurd hok (by simp)
          | some fin =>
            rw [hls] at hok
            simp only at hok
            split at hok
            · exact absurd hok (by simp)
            · rename_i hwin
              rw [if_neg (by decide : ¬ (SectionType.DATA = SectionType.TEXT))] at hok
              simp only [Except.ok.injEq, Prod.mk.injEq, true_and] at hok
              subst hok
              simp only [DolFile.sections, List.mem_append] at hs2
              rcases hs2 with hs2 | (hs2 | hs2)
              · exact Or.inl (List.mem_append.mpr (Or.inl hs2))
              · exact Or.inl (List.mem_append.mpr (Or.inr hs2))
              · right
                simp only [List.mem_singleton] at hs2
                subst hs2
                simp only
                omega
  · intro a prev fin hT hcap hprev hlast ha hout
    unfold DolFile.append_section
    rw [hT]
    rw [if_neg (by omega), hprev, hlast, ha]
    simp only
    rw [if_pos (by omega)]

/-- Witness for the amended C5: the section appended in the counterexample
has its address inside the legal window, and appending a section with the
explicit address 0x70000000 fails with AddressOutOfRangeError carrying the
unchanged container. -/
theorem c5_witness :
    (secC5new ∈ dolC5.sections ∨
      (0x80000000 ≤ secC5new.address ∧ secC5new.address < 0x81200000)) ∧
    dolC5.append_section pendBad =
      .error (.addressOutOfRangeError ("Address \x27" ++ natToHex8 0x70000000
        ++ "\x27 of this " ++ sectionClassName pendBad.sectionType
        ++ " is beyond scope (0x80000000 <-> 0x81200000)"), dolC5) := by
  constructor
  · exact (c5_append_section_amended dolC5 pendC5).1 dolC5after rfl secC5new (by decide)
  · exact (c5_append_section_amended dolC5 pendBad).2 0x70000000 secT1 secD1
      rfl (by decide) (by decide) (by decide) rfl (by omega)

/-! Bit-level helper lemmas for the branch encoding. -/

theorem testBit_high_false (x bound i : Nat) (hx : x < 2 ^ bound) (hi : bound ≤ i) :
    x.testBit i = false :=
  Nat.testBit_lt_two_pow
    (lt_of_lt_of_le hx (Nat.pow_le_pow_right (by norm_num) hi))

theorem land_mask32_align (x : Nat) (h4 : x % 4 = 0) (h32 : x < 2 ^ 32) :
    x &&& 0xFFFFFFFC = x := by
  have hmask : ∀ i, Nat.testBit 0xFFFFFFFC i = (decide (2 ≤ i) && decide (i < 32)) := by
    intro i
    by_cases h : i < 32
    · interval_cases i <;> decide
    · rw [testBit_high_false 0xFFFFFFFC 32 i (by norm_num) (by omega)]
      simp [h]
  apply Nat.eq_of_testBit_eq
  intro i
  rw [Nat.testBit_land, hmask i]
  rcases Nat.lt_or_ge i 2 with h2 | h2
  · have hx : x.testBit i = false := by
      interval_cases i <;> (rw [Nat.testBit_to_div_mod]; simp; omega)
    simp [hx]
  · rcases Nat.lt_or_ge i 32 with h3 | h3
    · simp [h2, h3]
    · rw [testBit_high_false x 32 i h32 h3]
      simp

theorem land_mask26d_align (x : Nat) (h4 : x % 4 = 0) (h26 : x < 2 ^ 26) :
    x &&& 0x3FFFFFD = x := by
  have hmask : ∀ i, Nat.testBit 0x3FFFFFD i =
      (decide (i = 0) || (decide (2 ≤ i) && decide (i < 26))) := by
    intro i
    by_cases h : i < 26
    · interval_cases i <;> decide
    · rw [testBit_high_false 0x3FFFFFD 26 i (by norm_num) (by omega)]
      simp [h]
      omega
  apply Nat.eq_of_testBit_eq
  intro i
  rw [Nat.testBit_land, hmask i]
  rcases Nat.lt_or_ge i 2 with h2 | h2
  · have hx1 : x.testBit 1 = false := by
      rw [Nat.testBit_to_div_mod]; simp; omega
    interval_cases i <;> simp [hx1]
  · rcases Nat.lt_or_ge i 26 with h3 | h3
    · simp [h2, h3]
    · rw [testBit_high_false x 26 i h26 h3]
      simp

theorem land_mask26c_align (x : Nat) (h4 : x % 4 = 0) (h26 : x < 2 ^ 26) :
    x &&& 0x3FFFFFC = x := by
  have hmask : ∀ i, Nat.testBit 0x3FFFFFC i = (decide (2 ≤ i) && decide (i < 26)) := by
    intro i
    by_cases h : i < 26
    · interval_cases i <;> decide
    · rw [testBit_high_false 0x3FFFFFC 26 i (by norm_num) (by omega)]
      simp [h]
  apply Nat.eq_of_testBit_eq
  intro i
  rw [Nat.testBit_land, hmask i]
  rcases Nat.lt_or_ge i 2 with h2 | h2
  · have hx : x.testBit i = false := by
      interval_cases i <;> (rw [Nat.testBit_to_div_mod]; simp; omega)
    simp [hx]
  · rcases Nat.lt_or_ge i 26 with h3 | h3
    · simp [h2, h3]
    · rw [testBit_high_false x 26 i h26 h3]
      simp

theorem lor_x48 (a : Nat) (h : a < 2 ^ 26) : a ||| 0x48000000 = 2 ^ 26 * 18 + a := by
  have h48 : (0x48000000 : Nat) = 2 ^ 26 * 18 + 0 := by norm_num
  apply Nat.eq_of_testBit_eq
  intro i
  rw [Nat.testBit_lor, h48, Nat.testBit_mul_pow_two_add 18 h i,
    Nat.testBit_mul_pow_two_add 18 (by norm_num : (0 : Nat) < 2 ^ 26) i]
  by_cases hi : i < 26
  · simp [hi, Nat.zero_testBit]
  · rw [testBit_high_false a 26 i h (by omega)]
    simp [hi]

theorem land_low26 (a b m : Nat) (hb : b < 2 ^ 26) (hm : m < 2 ^ 26) :
    (2 ^ 26 * a + b) &&& m = b &&& m := by
  apply Nat.eq_of_testBit_eq
  intro i
  rw [Nat.testBit_land, Nat.testBit_land, Nat.testBit_mul_pow_two_add a hb i]
  by_cases hi : i < 26
  · simp [hi]
  · rw [testBit_high_false m 26 i hm (by omega)]
    simp

theorem u32be_roundtrip (w : Nat) (h : w < 2 ^ 32) :
    bytesToU32be (u32beBytes w) = w := by
  simp only [bytesToU32be, u32beBytes, List.foldl]
  omega

theorem u32beBytes_length (w : Nat) : (u32beBytes w).length = 4 := rfl

/-! Helper lemmas about the in-place section update. -/

theorem sections_ignore_curr (dol : DolFile) (w : Nat) :
    ({ dol with currLogicAddr := w } : DolFile).sections = dol.sections := rfl

theorem sections_setSection (dol : DolFile) (i : Nat) (s : Section) :
    (dol.setSection i s).sections = dol.sections.set i s := by
  unfold DolFile.setSection DolFile.sections
  by_cases h : i < dol.textSections.length
  · rw [if_pos h]
    simp only
    rw [List.set_append, if_pos h]
  · rw [if_neg h]
    simp only
    rw [List.set_append, if_neg h]

theorem setSection_withCurr (dol : DolFile) (w i : Nat) (s : Section) :
    (({ dol with currLogicAddr := w } : DolFile).setSection i s) =
      { dol.setSection i s with currLogicAddr := w } := by
  unfold DolFile.setSection
  by_cases h : i < dol.textSections.length <;> simp [h]

theorem setSection_setSection (dol : DolFile) (i : Nat) (a b : Section) :
    (dol.setSection i a).setSection i b = dol.setSection i b := by
  unfold DolFile.setSection
  by_cases h : i < dol.textSections.length <;>
    simp [h, List.length_set, List.set_set]

/-! Success-path lemmas for the cursor operations. -/

theorem seek_ok (dol : DolFile) (w i : Nat) (sec : Section)
    (hres : findContaining dol.sections w = some (i, sec)) :
    dol.seek w 0 = .ok ((),
      { dol.setSection i { sec with data := sec.data.seek (w - sec.address) } with
        currLogicAddr := w }) := by
  unfold DolFile.seek
  rw [if_pos rfl, hres]

theorem read_ok (dol : DolFile) (i size : Nat) (sec : Section)
    (hres : findContaining dol.sections dol.currLogicAddr = some (i, sec))
    (hb : dol.currLogicAddr + size ≤ sec.address + sec.size) :
    dol.read size = .ok ((sec.data.buf.drop sec.data.pos).take size,
      { dol.setSection i
          { sec with data :=
              ⟨sec.data.buf,
                sec.data.pos + ((sec.data.buf.drop sec.data.pos).take size).length⟩ } with
        currLogicAddr := dol.currLogicAddr + size }) := by
  simp only [DolFile.read, hres,
    if_neg (by omega : ¬ dol.currLogicAddr + size > sec.address + sec.size),
    ByteStream.read]

theorem write_ok (dol : DolFile) (i : Nat) (sec : Section) (data : List Nat)
    (hres : findContaining dol.sections dol.currLogicAddr = some (i, sec))
    (hb : dol.currLogicAddr + data.length ≤ sec.address + sec.size) :
    dol.write data = .ok ((),
      { dol.setSection i { sec with data := sec.data.write data } with
        currLogicAddr := dol.currLogicAddr + data.length }) := by
  simp only [DolFile.write, hres,
    if_neg (by omega : ¬ dol.currLogicAddr + data.length > sec.address + sec.size)]

/-! Buffer lemmas for in-bounds writes. -/

theorem ByteStream.write_buf_length (s : ByteStream) (d : List Nat)
    (h : s.pos + d.length ≤ s.buf.length) :
    (s.write d).buf.length = s.buf.length := by
  simp only [ByteStream.write, List.length_append, List.length_take,
    List.length_replicate, List.length_drop]
  omega

theorem drop_append_of_length {l1 l2 : List Nat} {n : Nat} (h : l1.length = n) :
    (l1 ++ l2).drop n = l2 := by
  subst h
  exact List.drop_left l1 l2

theorem take_append_of_length {l1 l2 : List Nat} {n : Nat} (h : l1.length = n) :
    (l1 ++ l2).take n = l1 := by
  subst h
  exact List.take_left l1 l2

theorem ByteStream.write_readback (s : ByteStream) (d : List Nat)
    (h : s.pos + d.length ≤ s.buf.length) :
    ((s.write d).buf.drop s.pos).take d.length = d := by
  unfold ByteStream.write
  have hrep : s.pos - s.buf.length = 0 := by omega
  rw [hrep]
  simp only [List.replicate_zero, List.nil_append, List.append_nil]
  have h1 : (s.buf.take s.pos).length = s.pos := by
    rw [List.length_take]
    omega
  rw [List.append_assoc, drop_append_of_length h1, take_append_of_length rfl]

/-- C6: for 4-byte-aligned 32-bit addresses toAddr and _from mapped in a
section with at least 4 bytes of room, and toAddr - _from representable as
a 26-bit signed displacement, insert_branch(toAddr, _from, lk=false)
writes exactly the big-endian word ((toAddr - _from) & 0x03FFFFFC) |
0x48000000 (the claimBranchWord) into the section buffer at local offset
_from - address, and extract_branch_addr(_from) on the updated container
returns (toAddr, false). -/
theorem c6_insert_extract_branch (dol : DolFile) (i toAddr _from : Nat) (sec : Section)
    (hres : findContaining dol.sections _from = some (i, sec))
    (hroom : _from + 4 ≤ sec.address + sec.size)
    (hto4 : toAddr % 4 = 0) (hfrom4 : _from % 4 = 0)
    (hto32 : toAddr < 2 ^ 32) (hfrom32 : _from < 2 ^ 32)
    (hlo : -(2 ^ 25 : Int) ≤ (toAddr : Int) - (_from : Int))
    (hhi : (toAddr : Int) - (_from : Int) < 2 ^ 25) :
    dol.insert_branch toAddr _from false =
      .ok ((),
        { dol.setSection i
            { sec with
              data := (sec.data.seek (_from - sec.address)).write
                        (u32beBytes (claimBranchWord toAddr _from)) } with
          currLogicAddr := _from + 4 }) ∧
    branchResult
      (({ dol.setSection i
            { sec with
              data := (sec.data.seek (_from - sec.address)).write
                        (u32beBytes (claimBranchWord toAddr _from)) } with
          currLogicAddr := _from + 4 } : DolFile).extract_branch_addr _from) =
      some ((toAddr : Int), false) := by
  have hcon := (findContaining_some _ _ _ _ hres).2.2.1
  have haddr : sec.address ≤ _from ∧ _from < sec.address + sec.size := by
    simpa [sectionContains] using hcon
  have hsize : sec.size = sec.data.buf.length := rfl
  set d : Int := (toAddr : Int) - (_from : Int) with hd
  set dlow : Nat := ((d % 0x4000000).toNat : Nat) with hdl
  have hdlow_lt : dlow < 2 ^ 26 := by
    have h1 : d % 0x4000000 < 0x4000000 := Int.emod_lt_of_pos d (by norm_num)
    omega
  have hd4 : d % 4 = 0 := by rw [hd]; omega
  have hemod_nonneg : (0 : Int) ≤ d % 0x4000000 := Int.emod_nonneg d (by norm_num)
  have hemod4 : d % 0x4000000 % 4 = 0 := by
    have h2 : d % 0x4000000 % 4 = d % 4 := Int.emod_emod_of_dvd d (by norm_num)
    rw [h2, hd4]
  have hdlow4 : dlow % 4 = 0 := by omega
  have hmf : _from &&& 0xFFFFFFFC = _from := land_mask32_align _ hfrom4 hfrom32
  have hmt : toAddr &&& 0xFFFFFFFC = toAddr := land_mask32_align _ hto4 hto32
  have hword_code : dlow &&& 0x3FFFFFD ||| 0x48000000 ||| 0 = 2 ^ 26 * 18 + dlow := by
    rw [Nat.or_zero, land_mask26d_align dlow hdlow4 hdlow_lt, lor_x48 dlow hdlow_lt]
  have hclaim : claimBranchWord toAddr _from = 2 ^ 26 * 18 + dlow := by
    unfold claimBranchWord
    rw [← hd, ← hdl, land_mask26c_align dlow hdlow4 hdlow_lt, lor_x48 dlow hdlow_lt]
  set w : Nat := 2 ^ 26 * 18 + dlow with hw
  have hw32 : w < 2 ^ 32 := by omega
  rw [hclaim]
  -- the seek inside insert_branch
  have hseek := seek_ok dol _from i sec hres
  set sec1 : Section := { sec with data := sec.data.seek (_from - sec.address) } with hsec1
  set sec2 : Section :=
    { sec with
      data := (sec.data.seek (_from - sec.address)).write (u32beBytes w) } with hsec2
  have hposbound : (sec.data.seek (_from - sec.address)).pos + (u32beBytes w).length
      ≤ (sec.data.seek (_from - sec.address)).buf.length := by
    simp only [ByteStream.seek, u32beBytes_length]
    omega
  have hins : dol.insert_branch toAddr _from false =
      .ok ((), { dol.setSection i sec2 with currLogicAddr := _from + 4 }) := by
    unfold DolFile.insert_branch
    simp only [hmf, hmt]
    rw [hseek]
    simp only [Bool.false_eq_true, if_false]
    rw [← hd, ← hdl, hword_code]
    have hres1 : findContaining
        ({ dol.setSection i sec1 with currLogicAddr := _from } : DolFile).sections
        ({ dol.setSection i sec1 with currLogicAddr := _from } : DolFile).currLogicAddr =
        some (i, sec1) := by
      show findContaining ({ dol.setSection i sec1 with currLogicAddr := _from } : DolFile).sections
        _from = some (i, sec1)
      rw [sections_ignore_curr, sections_setSection]
      exact findContaining_set _ _ _ _ _ hres rfl rfl
    have hb1 : ({ dol.setSection i sec1 with currLogicAddr := _from } : DolFile).currLogicAddr
        + (u32beBytes w).length ≤ sec1.address + sec1.size := by
      show _from + (u32beBytes w).length ≤ sec.address + sec.size
      rw [u32beBytes_length]
      omega
    rw [write_ok _ i sec1 (u32beBytes w) hres1 hb1]
    rw [setSection_withCurr, setSection_setSection]
    rfl
  refine ⟨hins, ?_⟩
  -- the extract
  have hlen2 : sec2.data.buf.length = sec.data.buf.length := by
    rw [hsec2]
    simp only
    rw [ByteStream.write_buf_length _ _ hposbound]
    rfl
  have hsec2addr : sec2.address = sec.address := rfl
  set dolA : DolFile := { dol.setSection i sec2 with currLogicAddr := _from + 4 } with hdolA
  have hsectionsA : dolA.sections = dol.sections.set i sec2 := by
    rw [hdolA, sections_ignore_curr, sections_setSection]
  have hres2 : findContaining dolA.sections _from = some (i, sec2) := by
    rw [hsectionsA]
    exact findContaining_set _ _ _ _ _ hres hsec2addr hlen2
  set sec3 : Section := { sec2 with data := sec2.data.seek (_from - sec2.address) } with hsec3
  have hseek2 := seek_ok dolA _from i sec2 hres2
  unfold DolFile.extract_branch_addr
  rw [hseek2]
  simp only
  set dolE : DolFile := { dolA.setSection i sec3 with currLogicAddr := _from } with hdolE
  have hres3 : findContaining dolE.sections dolE.currLogicAddr = some (i, sec3) := by
    show findContaining dolE.sections _from = some (i, sec3)
    rw [hdolE, sections_ignore_curr, hdolA, setSection_withCurr]
    show findContaining (({ (dol.setSection i sec2).setSection i sec3 with
      currLogicAddr := _from + 4 } : DolFile)).sections _from = some (i, sec3)
    rw [sections_ignore_curr, setSection_setSection, sections_setSection]
    exact findContaining_set _ _ _ _ _ hres rfl (by rw [hsec3]; simpa using hlen2)
  have hb3 : dolE.currLogicAddr + 4 ≤ sec3.address + sec3.size := by
    show _from + 4 ≤ sec2.address + (sec2.data.seek (_from - sec2.address)).buf.length
    have h1 : (sec2.data.seek (_from - sec2.address)).buf.length = sec2.data.buf.length := rfl
    rw [h1, hlen2, hsec2addr]
    omega
  rw [read_ok dolE i 4 sec3 hres3 hb3]
  simp only
  have hout : (sec3.data.buf.drop sec3.data.pos).take 4 = u32beBytes w := by
    have h1 : sec3.data.buf = ((sec.data.seek (_from - sec.address)).write (u32beBytes w)).buf := rfl
    have h2 : sec3.data.pos = _from - sec.address := rfl
    rw [h1, h2]
    have h3 := ByteStream.write_readback (sec.data.seek (_from - sec.address))
      (u32beBytes w) hposbound
    rw [u32beBytes_length] at h3
    have h4 : (sec.data.seek (_from - sec.address)).pos = _from - sec.address := rfl
    rw [h4] at h3
    exact h3
  rw [hout, u32be_roundtrip w hw32]
  have hcond : decide ((w >>> 24) &&& 0xFF < 0x48) = false := by
    rw [Nat.shiftRight_eq_div_pow,
      show (0xFF : Nat) = 2 ^ 8 - 1 by norm_num, Nat.and_pow_two_sub_one_eq_mod]
    apply decide_eq_false
    omega
  have h25 : w &&& 0x2000000 = (dlow.testBit 25).toNat * 2 ^ 25 := by
    rw [hw, land_low26 18 dlow 0x2000000 hdlow_lt (by norm_num),
      show (0x2000000 : Nat) = 2 ^ 25 by norm_num, Nat.and_two_pow]
  have h26d : w &&& 0x3FFFFFD = dlow := by
    rw [hw, land_low26 18 dlow 0x3FFFFFD hdlow_lt (by norm_num),
      land_mask26d_align dlow hdlow4 hdlow_lt]
  simp only [branchResult, Option.some.injEq, Prod.mk.injEq]
  refine ⟨?_, hcond⟩
  rw [hcond]
  simp only [Bool.false_eq_true, if_false]
  rw [h25, h26d]
  rcases le_or_lt 0 d with hdpos | hdneg
  · have hemod_eq : d % 0x4000000 = d := by omega
    have hdlow_eq : (dlow : Int) = d := by
      rw [hdl, hemod_eq]
      omega
    have ht25 : dlow.testBit 25 = false := by
      rw [Nat.testBit_to_div_mod]
      apply decide_eq_false
      omega
    rw [ht25]
    simp only [Bool.toNat_false, Nat.zero_mul]
    rw [if_neg (by omega : ¬ (0 : Nat) ≠ 0)]
    omega
  · have hemod_eq : d % 0x4000000 = d + 0x4000000 := by omega
    have hdlow_eq : (dlow : Int) = d + 0x4000000 := by
      rw [hdl, hemod_eq]
      omega
    have ht25 : dlow.testBit 25 = true := by
      rw [Nat.testBit_to_div_mod]
      apply decide_eq_true
      omega
    rw [ht25]
    simp only [Bool.toNat_true, Nat.one_mul]
    rw [if_pos (by positivity : (2 ^ 25 : Nat) ≠ 0)]
    omega

/-- Witness for C6 at the concrete figures of the claim: the claimed word
is 0x48000004, inserting the branch stores its bytes, and extracting at
0x80001000 returns (0x80001004, false). -/
theorem c6_witness :
    claimBranchWord 0x80001004 0x80001000 = 0x48000004 ∧
    dolC6.insert_branch 0x80001004 0x80001000 false =
      .ok ((),
        { dolC6.setSection 0
            { secC6 with
              data := (secC6.data.seek (0x80001000 - secC6.address)).write
                        (u32beBytes (claimBranchWord 0x80001004 0x80001000)) } with
          currLogicAddr := 0x80001004 }) ∧
    branchResult
      (({ dolC6.setSection 0
            { secC6 with
              data := (secC6.data.seek (0x80001000 - secC6.address)).write
                        (u32beBytes (claimBranchWord 0x80001004 0x80001000)) } with
          currLogicAddr := 0x80001004 } : DolFile).extract_branch_addr 0x80001000) =
      some ((0x80001004 : Int), false) := by
  have h := c6_insert_extract_branch dolC6 0 0x80001004 0x80001000 secC6
    (by decide) (by decide) (by decide) (by decide) (by decide) (by decide)
    (by decide) (by decide)
  exact ⟨by decide, h.1, h.2⟩

/-! Output-sink lemmas for the save path. -/

theorem OStream.seekWrite_data_out (st : OStream) (q : Nat) (bs : List Nat) (p : Nat)
    (h : p < q ∨ q + bs.length ≤ p) :
    ((st.seek q).write bs).data p = st.data p := by
  unfold OStream.seek OStream.write
  simp only
  rw [if_neg (by omega)]

theorem OStream.seekWrite_data_in (st : OStream) (q : Nat) (bs : List Nat) (p : Nat)
    (h1 : q ≤ p) (h2 : p < q + bs.length) :
    ((st.seek q).write bs).data p = bs.getD (p - q) 0 := by
  unfold OStream.seek OStream.write
  simp only
  rw [if_pos (by omega)]

theorem OStream.seekWriteU32_data_out (st : OStream) (q v p : Nat)
    (h : p < q ∨ q + 4 ≤ p) :
    ((st.seek q).write_uint32 v).data p = st.data p := by
  unfold OStream.write_uint32
  exact OStream.seekWrite_data_out st q (u32beBytes v) p (by rw [u32beBytes_length]; omega)

theorem OStream.write_after_seekWrite_pos (st : OStream) (q : Nat) (bs : List Nat) :
    ((st.seek q).write bs).pos = q + bs.length := rfl

theorem readOutU32_seekWriteU32 (st : OStream) (q v : Nat) :
    readOutU32 ((st.seek q).write_uint32 v) q = v % 2 ^ 32 := by
  unfold readOutU32 OStream.write_uint32
  rw [OStream.seekWrite_data_in st q (u32beBytes v) q (by omega)
      (by rw [u32beBytes_length]; omega),
    OStream.seekWrite_data_in st q (u32beBytes v) (q + 1) (by omega)
      (by rw [u32beBytes_length]; omega),
    OStream.seekWrite_data_in st q (u32beBytes v) (q + 2) (by omega)
      (by rw [u32beBytes_length]; omega),
    OStream.seekWrite_data_in st q (u32beBytes v) (q + 3) (by omega)
      (by rw [u32beBytes_length]; omega)]
  have e0 : q - q = 0 := by omega
  have e1 : q + 1 - q = 1 := by omega
  have e2 : q + 2 - q = 2 := by omega
  have e3 : q + 3 - q = 3 := by omega
  rw [e0, e1, e2, e3]
  simp only [u32beBytes, List.getD_cons_zero, List.getD_cons_succ]
  omega

/-! The saveSections loop: unfold equations and pointwise characterisation. -/

theorem saveSections_cons (startpos numText : Nat) (s : Section) (rest : List Section)
    (i : Nat) (st : OStream) :
    saveSections startpos numText (s :: rest) i st =
      if s.sectionType = .UNDEFINED then
        (some (.incompleteSectionError ("Section " ++ Nat.repr i
          ++ " is abstract, convert to DataSection or TextSection for saving")), st)
      else
        saveSections startpos numText rest (i + 1)
          ((((((st.seek (DolFile.OffsetInfoLoc + 4 * entryOf s i numText + startpos)).write_uint32
              s.offset).seek
            (DolFile.AddressInfoLoc + 4 * entryOf s i numText + startpos)).write_uint32
              s.address).seek
            (DolFile.SizeInfoLoc + 4 * entryOf s i numText + startpos)).write_uint32 s.size
            |>.seek (s.offset + startpos) |>.write s.data.buf) := rfl

theorem fieldPos_le_of_entry_le (e p : Nat) (he : e ≤ 17) (h : fieldPos e p) :
    p ≤ 0xD7 := by
  unfold fieldPos DolFile.OffsetInfoLoc DolFile.AddressInfoLoc DolFile.SizeInfoLoc at h
  omega

theorem fieldPos_inj (e e2 p : Nat) (he : e ≤ 17) (he2 : e2 ≤ 17)
    (h : fieldPos e p) (h2 : fieldPos e2 p) : e = e2 := by
  unfold fieldPos DolFile.OffsetInfoLoc DolFile.AddressInfoLoc DolFile.SizeInfoLoc at h h2
  omega

theorem saveSections_untouched (numText : Nat) (secs : List Section) (i : Nat)
    (st : OStream) (p : Nat)
    (hw : ¬ writesTo numText secs i p) :
    (saveSections 0 numText secs i st).2.data p = st.data p := by
  induction secs generalizing i st with
  | nil => rfl
  | cons s rest ih =>
    rw [saveSections_cons]
    have hself : ¬ (fieldPos (entryOf s i numText) p ∨
        (s.offset ≤ p ∧ p < s.offset + s.data.buf.length)) := by
      intro hc
      exact hw ⟨0, by simp, by simpa using hc⟩
    by_cases hu : s.sectionType = .UNDEFINED
    · rw [if_pos hu]
    · rw [if_neg hu]
      have hrest : ¬ writesTo numText rest (i + 1) p := by
        intro hc
        obtain ⟨k, hk, hor⟩ := hc
        refine hw ⟨k + 1, by simpa using hk, ?_⟩
        have hsh : (i + 1) + k = i + (k + 1) := by omega
        rw [hsh] at hor
        simpa using hor
      rw [ih (i + 1) _ hrest]
      have hnd : ¬ (s.offset ≤ p ∧ p < s.offset + s.data.buf.length) :=
        fun hc => hself (Or.inr hc)
      have hnf : ¬ fieldPos (entryOf s i numText) p := fun hc => hself (Or.inl hc)
      unfold fieldPos at hnf
      have hnf1 : ¬ (DolFile.OffsetInfoLoc + 4 * entryOf s i numText ≤ p ∧
          p < DolFile.OffsetInfoLoc + 4 * entryOf s i numText + 4) :=
        fun hc => hnf (Or.inl hc)
      have hnf2 : ¬ (DolFile.AddressInfoLoc + 4 * entryOf s i numText ≤ p ∧
          p < DolFile.AddressInfoLoc + 4 * entryOf s i numText + 4) :=
        fun hc => hnf (Or.inr (Or.inl hc))
      have hnf3 : ¬ (DolFile.SizeInfoLoc + 4 * entryOf s i numText ≤ p ∧
          p < DolFile.SizeInfoLoc + 4 * entryOf s i numText + 4) :=
        fun hc => hnf (Or.inr (Or.inr hc))
      rw [OStream.seekWrite_data_out _ _ _ _ (by omega)]
      rw [OStream.seekWriteU32_data_out _ _ _ _ (by omega)]
      rw [OStream.seekWriteU32_data_out _ _ _ _ (by omega)]
      rw [OStream.seekWriteU32_data_out _ _ _ _ (by omega)]

theorem saveSections_covered (numText : Nat) (secs : List Section) (i : Nat)
    (st : OStream) (p v : Nat)
    (hdef : ∀ s ∈ secs, s.sectionType ≠ .UNDEFINED)
    (hoff : ∀ s ∈ secs, 0x100 ≤ s.offset)
    (hent : ∀ k, (hk : k < secs.length) →
      entryOf (secs.get ⟨k, hk⟩) (i + k) numText ≤ 17)
    (hcov : ∃ s ∈ secs, s.offset ≤ p ∧ p < s.offset + s.data.buf.length)
    (hval : ∀ s ∈ secs, s.offset ≤ p → p < s.offset + s.data.buf.length →
      s.data.buf.getD (p - s.offset) 0 = v) :
    (saveSections 0 numText secs i st).2.data p = v := by
  induction secs generalizing i st with
  | nil => simp at hcov
  | cons s rest ih =>
    have hp256 : 0x100 ≤ p := by
      obtain ⟨t, ht, ht1, ht2⟩ := hcov
      have := hoff t ht
      omega
    rw [saveSections_cons, if_neg (hdef s (List.mem_cons_self s rest))]
    have hentrest : ∀ k, (hk : k < rest.length) →
        entryOf (rest.get ⟨k, hk⟩) ((i + 1) + k) numText ≤ 17 := by
      intro k hk
      have h2 := hent (k + 1) (by simpa using hk)
      have hsh : (i + 1) + k = i + (k + 1) := by omega
      rw [hsh]
      simpa using h2
    by_cases hrest : ∃ t ∈ rest, t.offset ≤ p ∧ p < t.offset + t.data.buf.length
    · exact ih (i + 1) _
        (fun t ht => hdef t (List.mem_cons_of_mem _ ht))
        (fun t ht => hoff t (List.mem_cons_of_mem _ ht))
        hentrest hrest
        (fun t ht => hval t (List.mem_cons_of_mem _ ht))
    · have hsc : s.offset ≤ p ∧ p < s.offset + s.data.buf.length := by
        obtain ⟨t, ht, ht1, ht2⟩ := hcov
        rcases List.mem_cons.mp ht with rfl | ht
        · exact ⟨ht1, ht2⟩
        · exact absurd ⟨t, ht, ht1, ht2⟩ hrest
      have hw : ¬ writesTo numText rest (i + 1) p := by
        rintro ⟨k, hk, hor⟩
        rcases hor with hf | hd2
        · have hle := hentrest k hk
          have := fieldPos_le_of_entry_le _ p hle hf
          omega
        · exact hrest ⟨rest.get ⟨k, hk⟩, List.get_mem rest k hk, hd2⟩
      rw [saveSections_untouched numText rest (i + 1) _ p hw]
      rw [OStream.seekWrite_data_in _ _ _ _ (by omega) (by omega)]
      have harg : p - (s.offset + 0) = p - s.offset := by omega
      rw [harg]
      exact hval s (List.mem_cons_self s rest) hsc.1 hsc.2

theorem saveSections_none_of_defined (startpos numText : Nat) (secs : List Section)
    (i : Nat) (st : OStream)
    (hdef : ∀ s ∈ secs, s.sectionType ≠ .UNDEFINED) :
    (saveSections startpos numText secs i st).1 = none := by
  induction secs generalizing i st with
  | nil => rfl
  | cons s rest ih =>
    rw [saveSections_cons, if_neg (hdef s (List.mem_cons_self s rest))]
    exact ih (i + 1) _ (fun t ht => hdef t (List.mem_cons_of_mem _ ht))

theorem saveSections_first_undefined (startpos numText : Nat) (secs : List Section)
    (i : Nat) (st : OStream) (k : Nat) (hk : k < secs.length)
    (hundef : (secs.get ⟨k, hk⟩).sectionType = .UNDEFINED)
    (hbefore : ∀ j, (hj : j < k) →
      (secs.get ⟨j, by omega⟩).sectionType ≠ .UNDEFINED) :
    (saveSections startpos numText secs i st).1 =
      some (.incompleteSectionError ("Section " ++ Nat.repr (i + k)
        ++ " is abstract, convert to DataSection or TextSection for saving")) := by
  induction secs generalizing i k st with
  | nil => simp at hk
  | cons s rest ih =>
    cases k with
    | zero =>
      rw [saveSections_cons, if_pos (by simpa using hundef)]
      simp
    | succ k0 =>
      have hs0 : s.sectionType ≠ .UNDEFINED := by
        have := hbefore 0 (by omega)
        simpa using this
      rw [saveSections_cons, if_neg hs0]
      have hsh : i + (k0 + 1) = (i + 1) + k0 := by omega
      rw [hsh]
      exact ih (i + 1) _ k0 (by simpa using hk) (by simpa using hundef)
        (fun j hj => by
          have := hbefore (j + 1) (by omega)
          simpa using this)

/-! Remaining-write peeling for the BSS and entry-point fields of save. -/

theorem OStream.writeU32_data_out (st : OStream) (v p : Nat)
    (h : p < st.pos ∨ st.pos + 4 ≤ p) :
    (st.write_uint32 v).data p = st.data p := by
  unfold OStream.write_uint32 OStream.write
  simp only
  rw [if_neg (by rw [u32beBytes_length]; omega)]

theorem OStream.seek_data_eq (st : OStream) (q : Nat) : (st.seek q).data = st.data := rfl

theorem OStream.seekWriteU32_pos (st : OStream) (q v : Nat) :
    ((st.seek q).write_uint32 v).pos = q + 4 := rfl

/-! Structure of a loaded container. -/

theorem getD_drop_take (img : List Nat) (o n p : Nat) (h1 : o ≤ p)
    (h2 : p - o < ((img.drop o).take n).length) :
    ((img.drop o).take n).getD (p - o) 0 = img.getD p 0 := by
  have hj : p - o < n := by
    rw [List.length_take, List.length_drop] at h2
    omega
  rw [List.getD_eq_getElem?_getD, List.getD_eq_getElem?_getD,
    List.getElem?_take, if_pos hj, List.getElem?_drop]
  have ho : o + (p - o) = p := by omega
  rw [ho]

theorem loadSlot_some (img : List Nat) (startpos i : Nat) (s : Section)
    (h : loadSlot img startpos i = some s) :
    0x100 ≤ s.offset ∧
    s.data.buf = (img.drop (s.offset + startpos)).take
      (readU32be img (DolFile.SizeInfoLoc + 4 * i + startpos)) ∧
    s.sectionType = (if i < DolFile.MaxTextSections then .TEXT else .DATA) := by
  unfold loadSlot at h
  by_cases hge : readU32be img (DolFile.OffsetInfoLoc + 4 * i + startpos) ≥ 0x100
  · rw [if_pos hge] at h
    simp only [Option.some.injEq] at h
    subst h
    exact ⟨hge, rfl, rfl⟩
  · rw [if_neg hge] at h
    cases h

theorem seek0_ok_inv (dol : DolFile) (w : Nat) (u : Unit) (d : DolFile)
    (h : dol.seek w 0 = .ok (u, d)) :
    ∃ i sec, findContaining dol.sections w = some (i, sec) ∧
      d = { dol.setSection i { sec with data := sec.data.seek (w - sec.address) } with
            currLogicAddr := w } := by
  unfold DolFile.seek at h
  rw [if_pos rfl] at h
  cases hfc : findContaining dol.sections w with
  | none => rw [hfc] at h; cases h
  | some p =>
    obtain ⟨i, sec⟩ := p
    rw [hfc] at h
    refine ⟨i, sec, rfl, ?_⟩
    simp only [Except.ok.injEq, Prod.mk.injEq] at h
    exact h.2.symm

theorem setSection_textLength (dol : DolFile) (i : Nat) (s : Section) :
    (dol.setSection i s).textSections.length = dol.textSections.length := by
  unfold DolFile.setSection
  by_cases h : i < dol.textSections.length <;> simp [h, List.length_set]

theorem setSection_dataLength (dol : DolFile) (i : Nat) (s : Section) :
    (dol.setSection i s).dataSections.length = dol.dataSections.length := by
  unfold DolFile.setSection
  by_cases h : i < dol.textSections.length <;> simp [h, List.length_set]

theorem loadSections_text_mem (img : List Nat) (startpos : Nat) (s : Section)
    (hs : s ∈ (loadSections img startpos).1) :
    s.sectionType = .TEXT ∧ 0x100 ≤ s.offset ∧
    ∀ p, s.offset + startpos ≤ p → p < s.offset + startpos + s.data.buf.length →
      s.data.buf.getD (p - (s.offset + startpos)) 0 = img.getD p 0 := by
  unfold loadSections at hs
  simp only at hs
  obtain ⟨j, hj, hslot⟩ := List.mem_filterMap.mp hs
  have hjlt : j < DolFile.MaxTextSections := List.mem_range.mp hj
  obtain ⟨ho, hbuf, hty⟩ := loadSlot_some img startpos j s hslot
  refine ⟨by rw [hty, if_pos hjlt], ho, ?_⟩
  intro p hp1 hp2
  rw [hbuf]
  exact getD_drop_take img (s.offset + startpos) _ p hp1 (by rw [← hbuf]; omega)

theorem loadSections_data_mem (img : List Nat) (startpos : Nat) (s : Section)
    (hs : s ∈ (loadSections img startpos).2) :
    s.sectionType = .DATA ∧ 0x100 ≤ s.offset ∧
    ∀ p, s.offset + startpos ≤ p → p < s.offset + startpos + s.data.buf.length →
      s.data.buf.getD (p - (s.offset + startpos)) 0 = img.getD p 0 := by
  unfold loadSections at hs
  simp only at hs
  obtain ⟨j, hj, hslot⟩ := List.mem_filterMap.mp hs
  obtain ⟨ho, hbuf, hty⟩ := loadSlot_some img startpos (DolFile.MaxTextSections + j) s hslot
  refine ⟨by rw [hty, if_neg (by unfold DolFile.MaxTextSections; omega)], ho, ?_⟩
  intro p hp1 hp2
  rw [hbuf]
  exact getD_drop_take img (s.offset + startpos) _ p hp1 (by rw [← hbuf]; omega)

theorem entryOf_le_17 (dol : DolFile)
    (ht : dol.textSections.length ≤ DolFile.MaxTextSections)
    (hd : dol.dataSections.length ≤ DolFile.MaxDataSections)
    (htT : ∀ s ∈ dol.textSections, s.sectionType = .TEXT)
    (hdD : ∀ s ∈ dol.dataSections, s.sectionType = .DATA) :
    ∀ k, (hk : k < dol.sections.length) →
      entryOf (dol.sections.get ⟨k, hk⟩) (0 + k) dol.textSections.length ≤ 17 := by
  intro k hk
  have hlen : dol.sections.length = dol.textSections.length + dol.dataSections.length := by
    unfold DolFile.sections
    rw [List.length_append]
  by_cases hkt : k < dol.textSections.length
  · have hget : dol.sections.get ⟨k, hk⟩ = dol.textSections.get ⟨k, hkt⟩ :=
      List.get_append k hkt
    rw [hget]
    have hty := htT _ (List.get_mem _ k hkt)
    unfold entryOf
    rw [if_pos hty]
    unfold DolFile.MaxTextSections at ht
    omega
  · have hge : dol.textSections.length ≤ k := by omega
    have hklt : k - dol.textSections.length < dol.dataSections.length := by omega
    have hget : dol.sections.get ⟨k, hk⟩ =
        dol.dataSections.get ⟨k - dol.textSections.length, hklt⟩ :=
      List.get_append_right dol.textSections dol.dataSections hge
    rw [hget]
    have hty := hdD _ (List.get_mem dol.dataSections _ hklt)
    unfold entryOf
    rw [if_neg (by rw [hty]; simp)]
    unfold DolFile.MaxTextSections DolFile.MaxDataSections at *
    omega

theorem load_ok_struct (img : List Nat) (dol : DolFile)
    (h : DolFile.load img 0 = .ok dol) :
    dol.textSections.length ≤ DolFile.MaxTextSections ∧
    dol.dataSections.length ≤ DolFile.MaxDataSections ∧
    (∀ s ∈ dol.textSections, s.sectionType = .TEXT) ∧
    (∀ s ∈ dol.dataSections, s.sectionType = .DATA) ∧
    (∀ s ∈ dol.sections, 0x100 ≤ s.offset ∧
      ∀ p, s.offset ≤ p → p < s.offset + s.data.buf.length →
        s.data.buf.getD (p - s.offset) 0 = img.getD p 0) := by
  set base : DolFile :=
    { textSections := (loadSections img 0).1
      dataSections := (loadSections img 0).2
      bssAddress := readU32be img (DolFile.BssInfoLoc + 0)
      bssSize := readU32be img (DolFile.BssInfoLoc + 4 + 0)
      entryPoint := readU32be img (DolFile.EntryInfoLoc + 0)
      currLogicAddr := 0 } with hbase
  have hload2 : (match base.firstSection with
      | none => (.error (.indexError ("list index out of range")) :
          Except DolError DolFile)
      | some fs =>
        match ({ base with currLogicAddr := fs.address } : DolFile).seek fs.address 0 with
        | .ok (_, d) => .ok d
        | .error (e, _) => .error e) = Except.ok dol := h
  -- shared facts about the pre-seek tables
  have hQ : ∀ s ∈ base.sections,
      (s.sectionType = .TEXT ∨ s.sectionType = .DATA) ∧ 0x100 ≤ s.offset ∧
      ∀ p, s.offset ≤ p → p < s.offset + s.data.buf.length →
        s.data.buf.getD (p - s.offset) 0 = img.getD p 0 := by
    intro s hs
    have hs2 : s ∈ (loadSections img 0).1 ∨ s ∈ (loadSections img 0).2 :=
      List.mem_append.mp hs
    rcases hs2 with hs2 | hs2
    · obtain ⟨hty, ho, hb⟩ := loadSections_text_mem img 0 s hs2
      refine ⟨Or.inl hty, ho, ?_⟩
      intro p hp1 hp2
      have := hb p (by omega) (by omega)
      simpa using this
    · obtain ⟨hty, ho, hb⟩ := loadSections_data_mem img 0 s hs2
      refine ⟨Or.inr hty, ho, ?_⟩
      intro p hp1 hp2
      have := hb p (by omega) (by omega)
      simpa using this
  have hTty : ∀ s ∈ base.textSections, s.sectionType = .TEXT :=
    fun s hs => (loadSections_text_mem img 0 s hs).1
  have hDty : ∀ s ∈ base.dataSections, s.sectionType = .DATA :=
    fun s hs => (loadSections_data_mem img 0 s hs).1
  have hT7 : base.textSections.length ≤ DolFile.MaxTextSections := by
    show ((List.range DolFile.MaxTextSections).filterMap (loadSlot img 0)).length
      ≤ DolFile.MaxTextSections
    calc ((List.range DolFile.MaxTextSections).filterMap (loadSlot img 0)).length
        ≤ (List.range DolFile.MaxTextSections).length := List.length_filterMap_le _ _
      _ = DolFile.MaxTextSections := List.length_range _
  have hD11 : base.dataSections.length ≤ DolFile.MaxDataSections := by
    show ((List.range DolFile.MaxDataSections).filterMap
      (fun j => loadSlot img 0 (DolFile.MaxTextSections + j))).length ≤ DolFile.MaxDataSections
    calc ((List.range DolFile.MaxDataSections).filterMap
          (fun j => loadSlot img 0 (DolFile.MaxTextSections + j))).length
        ≤ (List.range DolFile.MaxDataSections).length := List.length_filterMap_le _ _
      _ = DolFile.MaxDataSections := List.length_range _
  cases hfs : base.firstSection with
  | none =>
    rw [hfs] at hload2
    have hx : (Except.error (DolError.indexError ("list index out of range")) :
        Except DolError DolFile) = Except.ok dol := hload2
    cases hx
  | some fs =>
    have hload3 : (match ({ base with currLogicAddr := fs.address } : DolFile).seek
          fs.address 0 with
        | .ok (_, d) => (Except.ok d : Except DolError DolFile)
        | .error (e, _) => .error e) = Except.ok dol := by
      rw [hfs] at hload2
      exact hload2
    cases hseekeq : ({ base with currLogicAddr := fs.address } : DolFile).seek fs.address 0 with
    | error e =>
      obtain ⟨e1, d1⟩ := e
      rw [hseekeq] at hload3
      have hx : (Except.error e1 : Except DolError DolFile) = Except.ok dol := hload3
      cases hx
    | ok pair =>
      obtain ⟨u, d⟩ := pair
      rw [hseekeq] at hload3
      have hdol : dol = d := by
        have hx : (Except.ok d : Except DolError DolFile) = Except.ok dol := hload3
        simp only [Except.ok.injEq] at hx
        exact hx.symm
      subst hdol
      obtain ⟨i, sec, hfc, hd0⟩ := seek0_ok_inv _ _ _ _ hseekeq
      have hilen : i < base.sections.length := (findContaining_some _ _ _ _ hfc).1
      have hgetD : base.sections.getD i default = sec :=
        (findContaining_some _ _ _ _ hfc).2.1
      have hsecmem : sec ∈ base.sections := by
        rw [← hgetD, List.getD_eq_getElem?_getD, List.getElem?_eq_getElem hilen]
        exact List.getElem_mem _
      set sec2 : Section :=
        { sec with data := sec.data.seek (fs.address - sec.address) } with hsec2
      have hdtex : dol.textSections = (base.setSection i sec2).textSections := by
        rw [hd0, setSection_withCurr]
      have hddat : dol.dataSections = (base.setSection i sec2).dataSections := by
        rw [hd0, setSection_withCurr]
      have hmemtex : ∀ s2 ∈ dol.textSections, s2 ∈ base.textSections ∨ s2 = sec2 := by
        intro s2 hs2
        rw [hdtex] at hs2
        unfold DolFile.setSection at hs2
        by_cases hi : i < base.textSections.length
        · rw [if_pos hi] at hs2
          exact List.mem_or_eq_of_mem_set hs2
        · rw [if_neg hi] at hs2
          exact Or.inl hs2
      have hmemdat : ∀ s2 ∈ dol.dataSections, s2 ∈ base.dataSections ∨ s2 = sec2 := by
        intro s2 hs2
        rw [hddat] at hs2
        unfold DolFile.setSection at hs2
        by_cases hi : i < base.textSections.length
        · rw [if_pos hi] at hs2
          exact Or.inl hs2
        · rw [if_neg hi] at hs2
          exact List.mem_or_eq_of_mem_set hs2
      have hsec2type : sec2.sectionType = sec.sectionType := rfl
      have hsec2off : sec2.offset = sec.offset := rfl
      have hsec2buf : sec2.data.buf = sec.data.buf := rfl
      refine ⟨?_, ?_, ?_, ?_, ?_⟩
      · rw [hdtex, setSection_textLength]
        exact hT7
      · rw [hddat, setSection_dataLength]
        exact hD11
      · intro s2 hs2
        rcases hmemtex s2 hs2 with hm | rfl
        · exact hTty s2 hm
        · -- sec2 landed in the text table, so i < textSections.length and sec is a text section
          rw [hdtex] at hs2
          unfold DolFile.setSection at hs2
          by_cases hi : i < base.textSections.length
          · have hget : base.sections.getD i default = base.textSections.get ⟨i, hi⟩ := by
              rw [List.getD_eq_getElem?_getD, List.getElem?_eq_getElem hilen]
              show base.sections.get ⟨i, hilen⟩ = base.textSections.get ⟨i, hi⟩
              exact List.get_append i hi
            rw [hsec2type]
            rw [← hgetD, hget]
            exact hTty _ (List.get_mem base.textSections i hi)
          · rw [if_neg hi] at hs2
            exact hTty _ hs2
      · intro s2 hs2
        rcases hmemdat s2 hs2 with hm | rfl
        · exact hDty s2 hm
        · rw [hddat] at hs2
          unfold DolFile.setSection at hs2
          by_cases hi : i < base.textSections.length
          · rw [if_pos hi] at hs2
            exact hDty _ hs2
          · have hilt : i - base.textSections.length < base.dataSections.length := by
              have : base.sections.length =
                  base.textSections.length + base.dataSections.length := by
                unfold DolFile.sections
                rw [List.length_append]
              omega
            have hget : base.sections.getD i default =
                base.dataSections.get ⟨i - base.textSections.length, hilt⟩ := by
              rw [List.getD_eq_getElem?_getD, List.getElem?_eq_getElem hilen]
              show base.sections.get ⟨i, hilen⟩ = _
              exact List.get_append_right base.textSections base.dataSections (by omega)
            rw [hsec2type]
            rw [← hgetD, hget]
            exact hDty _ (List.get_mem base.dataSections _ hilt)
      · intro s2 hs2
        have hsplit : s2 ∈ dol.textSections ∨ s2 ∈ dol.dataSections :=
          List.mem_append.mp hs2
        have hmem2 : s2 ∈ base.sections ∨ s2 = sec2 := by
          rcases hsplit with hm | hm
          · rcases hmemtex s2 hm with hm2 | hm2
            · exact Or.inl (List.mem_append.mpr (Or.inl hm2))
            · exact Or.inr hm2
          · rcases hmemdat s2 hm with hm2 | hm2
            · exact Or.inl (List.mem_append.mpr (Or.inr hm2))
            · exact Or.inr hm2
        rcases hmem2 with hm | rfl
        · exact ⟨(hQ s2 hm).2.1, (hQ s2 hm).2.2⟩
        · have hq := hQ sec hsecmem
          rw [hsec2off, hsec2buf]
          exact ⟨hq.2.1, hq.2.2⟩

/-- C2: loading a container image and immediately saving it reproduces the
image byte-for-byte over every loaded section's file range [offset,
offset + size), and the save completes without error (all loaded sections
have a definite kind). -/
theorem c2_load_save_segment_region (img : List Nat) (dol : DolFile) (sink : OStream)
    (s : Section) (p : Nat)
    (hload : DolFile.load img 0 = .ok dol)
    (hs : s ∈ dol.sections)
    (hp1 : s.offset ≤ p) (hp2 : p < s.offset + s.size) :
    (dol.save sink 0).1 = none ∧
    (dol.save sink 0).2.data p = img.getD p 0 := by
  obtain ⟨hT7, hD11, hTty, hDty, hQ⟩ := load_ok_struct img dol hload
  have hdef : ∀ t ∈ dol.sections, t.sectionType ≠ .UNDEFINED := by
    intro t ht
    rcases List.mem_append.mp ht with hm | hm
    · rw [hTty t hm]
      simp
    · rw [hDty t hm]
      simp
  have hoff : ∀ t ∈ dol.sections, 0x100 ≤ t.offset := fun t ht => (hQ t ht).1
  have hent := entryOf_le_17 dol hT7 hD11 hTty hDty
  have hp256 : 0x100 ≤ p := by
    have := hoff s hs
    omega
  unfold DolFile.save
  cases hsv : saveSections 0 dol.textSections.length dol.sections 0
      ((sink.seek 0).write (List.replicate dol.size 0)) with
  | mk o st2 =>
    have ho : o = none := by
      have h2 := saveSections_none_of_defined 0 dol.textSections.length dol.sections 0
        ((sink.seek 0).write (List.replicate dol.size 0)) hdef
      rw [hsv] at h2
      exact h2
    subst ho
    refine ⟨rfl, ?_⟩
    show (((((st2.seek (DolFile.BssInfoLoc + 0)).write_uint32
      dol.bssAddress).write_uint32 dol.bssSize).seek
      (DolFile.EntryInfoLoc + 0)).write_uint32 dol.entryPoint |>.seek 0).data p
      = img.getD p 0
    rw [OStream.seek_data_eq]
    rw [OStream.seekWriteU32_data_out _ _ _ _ (by unfold DolFile.EntryInfoLoc; omega)]
    rw [OStream.writeU32_data_out _ _ _
      (by rw [OStream.seekWriteU32_pos]; unfold DolFile.BssInfoLoc; omega)]
    rw [OStream.seekWriteU32_data_out _ _ _ _ (by unfold DolFile.BssInfoLoc; omega)]
    have h2 := saveSections_covered dol.textSections.length dol.sections 0
      ((sink.seek 0).write (List.replicate dol.size 0)) p (img.getD p 0)
      hdef hoff hent ⟨s, hs, hp1, hp2⟩ (fun t ht ha hb => (hQ t ht).2 p ha hb)
    rw [hsv] at h2
    exact h2

/-! Field-slot lemmas for C8. -/

theorem readOutU32_seekWrite_out (st : OStream) (q : Nat) (bs : List Nat) (p : Nat)
    (h : p + 4 ≤ q ∨ q + bs.length ≤ p) :
    readOutU32 ((st.seek q).write bs) p = readOutU32 st p := by
  unfold readOutU32
  rw [OStream.seekWrite_data_out _ _ _ _ (by omega),
    OStream.seekWrite_data_out _ _ _ _ (by omega),
    OStream.seekWrite_data_out _ _ _ _ (by omega),
    OStream.seekWrite_data_out _ _ _ _ (by omega)]

theorem readOutU32_seekWriteU32_out (st : OStream) (q v p : Nat)
    (h : p + 4 ≤ q ∨ q + 4 ≤ p) :
    readOutU32 ((st.seek q).write_uint32 v) p = readOutU32 st p := by
  unfold OStream.write_uint32
  exact readOutU32_seekWrite_out st q (u32beBytes v) p (by rw [u32beBytes_length]; omega)

theorem entryOf_cons_shift (s : Section) (rest : List Section) (i numText k2 : Nat)
    (hk2 : k2 < rest.length) :
    entryOf (rest.get ⟨k2, hk2⟩) ((i + 1) + k2) numText =
      entryOf ((s :: rest).get ⟨k2 + 1, by simpa using hk2⟩) (i + (k2 + 1)) numText := by
  have hsh : (i + 1) + k2 = i + (k2 + 1) := by omega
  rw [hsh]
  rfl

theorem saveSections_field_value (numText : Nat) (secs : List Section) (i : Nat)
    (st : OStream) (k : Nat) (hk : k < secs.length)
    (hdef : ∀ s ∈ secs, s.sectionType ≠ .UNDEFINED)
    (hoff : ∀ s ∈ secs, 0x100 ≤ s.offset)
    (hent : ∀ k2, (hk2 : k2 < secs.length) →
      entryOf (secs.get ⟨k2, hk2⟩) (i + k2) numText ≤ 17)
    (huniq : ∀ k2, (hk2 : k2 < secs.length) → k2 ≠ k →
      entryOf (secs.get ⟨k2, hk2⟩) (i + k2) numText ≠
        entryOf (secs.get ⟨k, hk⟩) (i + k) numText) :
    readOutU32 (saveSections 0 numText secs i st).2
        (DolFile.OffsetInfoLoc + 4 * entryOf (secs.get ⟨k, hk⟩) (i + k) numText)
      = (secs.get ⟨k, hk⟩).offset % 2 ^ 32 ∧
    readOutU32 (saveSections 0 numText secs i st).2
        (DolFile.AddressInfoLoc + 4 * entryOf (secs.get ⟨k, hk⟩) (i + k) numText)
      = (secs.get ⟨k, hk⟩).address % 2 ^ 32 ∧
    readOutU32 (saveSections 0 numText secs i st).2
        (DolFile.SizeInfoLoc + 4 * entryOf (secs.get ⟨k, hk⟩) (i + k) numText)
      = (secs.get ⟨k, hk⟩).size % 2 ^ 32 := by
  induction secs generalizing i st k with
  | nil => simp at hk
  | cons s rest ih =>
    rw [saveSections_cons, if_neg (hdef s (List.mem_cons_self s rest))]
    simp only [Nat.add_zero]
    cases k with
    | zero =>
      have hget0 : (s :: rest).get ⟨0, hk⟩ = s := rfl
      rw [hget0] at huniq ⊢
      simp only [Nat.add_zero] at huniq ⊢
      have he : entryOf s i numText ≤ 17 := by
        have := hent 0 (by simp)
        simpa using this
      have huntouched : ∀ q, fieldPos (entryOf s i numText) q →
          ∀ st2, (saveSections 0 numText rest (i + 1) st2).2.data q = st2.data q := by
        intro q hq st2
        apply saveSections_untouched
        rintro ⟨k2, hk2, hor⟩
        rcases hor with hf | hdta
        · have he2 : entryOf (rest.get ⟨k2, hk2⟩) ((i + 1) + k2) numText ≤ 17 := by
            rw [entryOf_cons_shift s rest i numText k2 hk2]
            exact hent (k2 + 1) (by simpa using hk2)
          have heq := fieldPos_inj _ _ q he2 he hf hq
          refine huniq (k2 + 1) (by simpa using hk2) (by omega) ?_
          rw [← entryOf_cons_shift s rest i numText k2 hk2]
          simpa using heq
        · have h1 := hoff (rest.get ⟨k2, hk2⟩)
            (List.mem_cons_of_mem _ (List.get_mem rest k2 hk2))
          have h2 := fieldPos_le_of_entry_le _ q he hq
          omega
      have hfp : ∀ base c, c < 4 →
          (base = DolFile.OffsetInfoLoc ∨ base = DolFile.AddressInfoLoc ∨
            base = DolFile.SizeInfoLoc) →
          fieldPos (entryOf s i numText) (base + 4 * entryOf s i numText + c) := by
        intro base c hc hb
        unfold fieldPos
        rcases hb with rfl | rfl | rfl
        · exact Or.inl ⟨by omega, by omega⟩
        · exact Or.inr (Or.inl ⟨by omega, by omega⟩)
        · exact Or.inr (Or.inr ⟨by omega, by omega⟩)
      have hro : ∀ base, (base = DolFile.OffsetInfoLoc ∨ base = DolFile.AddressInfoLoc ∨
          base = DolFile.SizeInfoLoc) → ∀ st2,
          readOutU32 (saveSections 0 numText rest (i + 1) st2).2
            (base + 4 * entryOf s i numText) = readOutU32 st2 (base + 4 * entryOf s i numText) := by
        intro base hb st2
        unfold readOutU32
        rw [huntouched _ (by simpa using hfp base 0 (by omega) hb) st2,
          huntouched _ (hfp base 1 (by omega) hb) st2,
          huntouched _ (hfp base 2 (by omega) hb) st2,
          huntouched _ (hfp base 3 (by omega) hb) st2]
      have hoffs : 0x100 ≤ s.offset := hoff s (List.mem_cons_self s rest)
      refine ⟨?_, ?_, ?_⟩
      · rw [hro DolFile.OffsetInfoLoc (Or.inl rfl) _]
        rw [readOutU32_seekWrite_out _ _ _ _
          (by unfold DolFile.OffsetInfoLoc at *; omega)]
        rw [readOutU32_seekWriteU32_out _ _ _ _
          (by unfold DolFile.OffsetInfoLoc DolFile.SizeInfoLoc; omega)]
        rw [readOutU32_seekWriteU32_out _ _ _ _
          (by unfold DolFile.OffsetInfoLoc DolFile.AddressInfoLoc; omega)]
        exact readOutU32_seekWriteU32 st _ s.offset
      · rw [hro DolFile.AddressInfoLoc (Or.inr (Or.inl rfl)) _]
        rw [readOutU32_seekWrite_out _ _ _ _
          (by unfold DolFile.AddressInfoLoc at *; omega)]
        rw [readOutU32_seekWriteU32_out _ _ _ _
          (by unfold DolFile.AddressInfoLoc DolFile.SizeInfoLoc; omega)]
        exact readOutU32_seekWriteU32 _ _ s.address
      · rw [hro DolFile.SizeInfoLoc (Or.inr (Or.inr rfl)) _]
        rw [readOutU32_seekWrite_out _ _ _ _
          (by unfold DolFile.SizeInfoLoc at *; omega)]
        exact readOutU32_seekWriteU32 _ _ s.size
    | succ k0 =>
      have hk0 : k0 < rest.length := by simpa using hk
      have hget : (s :: rest).get ⟨k0 + 1, hk⟩ = rest.get ⟨k0, hk0⟩ := rfl
      rw [hget]
      have hsh : i + (k0 + 1) = (i + 1) + k0 := by omega
      rw [hsh]
      refine ih (i + 1) _ k0 hk0
        (fun t ht => hdef t (List.mem_cons_of_mem _ ht))
        (fun t ht => hoff t (List.mem_cons_of_mem _ ht))
        (fun k2 hk2 => by
          rw [entryOf_cons_shift s rest i numText k2 hk2]
          exact hent (k2 + 1) (by simpa using hk2))
        (fun k2 hk2 hne => by
          rw [entryOf_cons_shift s rest i numText k2 hk2,
            entryOf_cons_shift s rest i numText k0 hk0]
          exact huniq (k2 + 1) (by simpa using hk2) (by omega))

theorem readOutU32_seek (st : OStream) (q p : Nat) :
    readOutU32 (st.seek q) p = readOutU32 st p := rfl

theorem readOutU32_writeU32_out (st : OStream) (v p : Nat)
    (h : p + 4 ≤ st.pos ∨ st.pos + 4 ≤ p) :
    readOutU32 (st.write_uint32 v) p = readOutU32 st p := by
  unfold readOutU32
  rw [OStream.writeU32_data_out _ _ _ (by omega),
    OStream.writeU32_data_out _ _ _ (by omega),
    OStream.writeU32_data_out _ _ _ (by omega),
    OStream.writeU32_data_out _ _ _ (by omega)]

theorem entryOf_compute (dol : DolFile)
    (htT : ∀ s ∈ dol.textSections, s.sectionType = .TEXT)
    (hdD : ∀ s ∈ dol.dataSections, s.sectionType = .DATA) :
    ∀ k, (hk : k < dol.sections.length) →
      entryOf (dol.sections.get ⟨k, hk⟩) (0 + k) dol.textSections.length =
        if k < dol.textSections.length then k
        else k + (DolFile.MaxTextSections - dol.textSections.length) := by
  have hlen : dol.sections.length = dol.textSections.length + dol.dataSections.length := by
    unfold DolFile.sections
    rw [List.length_append]
  intro k hk
  by_cases hkt : k < dol.textSections.length
  · rw [if_pos hkt]
    have hget : dol.sections.get ⟨k, hk⟩ = dol.textSections.get ⟨k, hkt⟩ :=
      List.get_append k hkt
    rw [hget]
    unfold entryOf
    rw [if_pos (htT _ (List.get_mem _ k hkt))]
    omega
  · rw [if_neg hkt]
    have hklt : k - dol.textSections.length < dol.dataSections.length := by omega
    have hget : dol.sections.get ⟨k, hk⟩ =
        dol.dataSections.get ⟨k - dol.textSections.length, hklt⟩ :=
      List.get_append_right dol.textSections dol.dataSections (by omega)
    rw [hget]
    unfold entryOf
    rw [if_neg (by rw [hdD _ (List.get_mem dol.dataSections _ hklt)]; simp)]
    omega

theorem entryOf_inj (dol : DolFile)
    (ht : dol.textSections.length ≤ DolFile.MaxTextSections)
    (htT : ∀ s ∈ dol.textSections, s.sectionType = .TEXT)
    (hdD : ∀ s ∈ dol.dataSections, s.sectionType = .DATA) :
    ∀ k k2, (hk : k < dol.sections.length) → (hk2 : k2 < dol.sections.length) → k ≠ k2 →
      entryOf (dol.sections.get ⟨k, hk⟩) (0 + k) dol.textSections.length ≠
        entryOf (dol.sections.get ⟨k2, hk2⟩) (0 + k2) dol.textSections.length := by
  intro k k2 hk hk2 hne
  rw [entryOf_compute dol htT hdD k hk, entryOf_compute dol htT hdD k2 hk2]
  unfold DolFile.MaxTextSections at *
  by_cases h1 : k < dol.textSections.length <;> by_cases h2 : k2 < dol.textSections.length
  · rw [if_pos h1, if_pos h2]
    omega
  · rw [if_pos h1, if_neg h2]
    omega
  · rw [if_neg h1, if_pos h2]
    omega
  · rw [if_neg h1, if_neg h2]
    omega

/-- C8: save places the (offset, address, size) triple of the i-th text
section in header slot i and of the j-th data section in slot 7 + j —
independent of how many text slots are filled — at the fixed big-endian
table offsets 0x00, 0x48 and 0x90, each slot 4 bytes wide. -/
theorem c8_save_slot_layout (dol : DolFile) (sink : OStream)
    (ht : dol.textSections.length ≤ DolFile.MaxTextSections)
    (hd : dol.dataSections.length ≤ DolFile.MaxDataSections)
    (htT : ∀ s ∈ dol.textSections, s.sectionType = .TEXT)
    (hdD : ∀ s ∈ dol.dataSections, s.sectionType = .DATA)
    (hoff : ∀ s ∈ dol.sections, 0x100 ≤ s.offset)
    (hbound : ∀ s ∈ dol.sections, s.offset < 2 ^ 32 ∧ s.address < 2 ^ 32 ∧
      s.size < 2 ^ 32) :
    (∀ ti, (hti : ti < dol.textSections.length) →
      readOutU32 (dol.save sink 0).2 (DolFile.OffsetInfoLoc + 4 * ti)
        = (dol.textSections.get ⟨ti, hti⟩).offset ∧
      readOutU32 (dol.save sink 0).2 (DolFile.AddressInfoLoc + 4 * ti)
        = (dol.textSections.get ⟨ti, hti⟩).address ∧
      readOutU32 (dol.save sink 0).2 (DolFile.SizeInfoLoc + 4 * ti)
        = (dol.textSections.get ⟨ti, hti⟩).size) ∧
    (∀ dj, (hdj : dj < dol.dataSections.length) →
      readOutU32 (dol.save sink 0).2 (DolFile.OffsetInfoLoc + 4 * (7 + dj))
        = (dol.dataSections.get ⟨dj, hdj⟩).offset ∧
      readOutU32 (dol.save sink 0).2 (DolFile.AddressInfoLoc + 4 * (7 + dj))
        = (dol.dataSections.get ⟨dj, hdj⟩).address ∧
      readOutU32 (dol.save sink 0).2 (DolFile.SizeInfoLoc + 4 * (7 + dj))
        = (dol.dataSections.get ⟨dj, hdj⟩).size) := by
  have hlen : dol.sections.length = dol.textSections.length + dol.dataSections.length := by
    unfold DolFile.sections
    rw [List.length_append]
  have hdef : ∀ t ∈ dol.sections, t.sectionType ≠ .UNDEFINED := by
    intro t htm
    rcases List.mem_append.mp htm with hm | hm
    · rw [htT t hm]
      simp
    · rw [hdD t hm]
      simp
  have hent := entryOf_le_17 dol ht hd htT hdD
  have huniqAll := entryOf_inj dol ht htT hdD
  have hkey : ∀ p, p + 4 ≤ 0xD8 → readOutU32 (dol.save sink 0).2 p =
      readOutU32 (saveSections 0 dol.textSections.length dol.sections 0
        ((sink.seek 0).write (List.replicate dol.size 0))).2 p := by
    intro p hp
    unfold DolFile.save
    cases hsv : saveSections 0 dol.textSections.length dol.sections 0
        ((sink.seek 0).write (List.replicate dol.size 0)) with
    | mk o st2 =>
      have ho : o = none := by
        have h2 := saveSections_none_of_defined 0 dol.textSections.length dol.sections 0
          ((sink.seek 0).write (List.replicate dol.size 0)) hdef
        rw [hsv] at h2
        exact h2
      subst ho
      show readOutU32 ((((((st2.seek (DolFile.BssInfoLoc + 0)).write_uint32
        dol.bssAddress).write_uint32 dol.bssSize).seek
        (DolFile.EntryInfoLoc + 0)).write_uint32 dol.entryPoint).seek 0) p
        = readOutU32 st2 p
      rw [readOutU32_seek]
      rw [readOutU32_seekWriteU32_out _ _ _ _ (by unfold DolFile.EntryInfoLoc; omega)]
      rw [readOutU32_writeU32_out _ _ _
        (by rw [OStream.seekWriteU32_pos]; unfold DolFile.BssInfoLoc; omega)]
      rw [readOutU32_seekWriteU32_out _ _ _ _ (by unfold DolFile.BssInfoLoc; omega)]
  constructor
  · intro ti hti
    have hsk : ti < dol.sections.length := by omega
    have hgetk : dol.sections.get ⟨ti, hsk⟩ = dol.textSections.get ⟨ti, hti⟩ :=
      List.get_append ti hti
    have hmem : dol.textSections.get ⟨ti, hti⟩ ∈ dol.sections :=
      List.mem_append.mpr (Or.inl (List.get_mem _ ti hti))
    have hek : entryOf (dol.sections.get ⟨ti, hsk⟩) (0 + ti) dol.textSections.length = ti := by
      rw [entryOf_compute dol htT hdD ti hsk, if_pos hti]
    have hfv := saveSections_field_value dol.textSections.length dol.sections 0
      ((sink.seek 0).write (List.replicate dol.size 0)) ti hsk hdef hoff hent
      (fun k2 hk2 hne => huniqAll k2 ti hk2 hsk hne)
    rw [hek, hgetk] at hfv
    obtain ⟨hb1, hb2, hb3⟩ := hbound _ hmem
    refine ⟨?_, ?_, ?_⟩
    · rw [hkey _ (by unfold DolFile.OffsetInfoLoc DolFile.MaxTextSections at *; omega)]
      rw [hfv.1]
      exact Nat.mod_eq_of_lt hb1
    · rw [hkey _ (by unfold DolFile.AddressInfoLoc DolFile.MaxTextSections at *; omega)]
      rw [hfv.2.1]
      exact Nat.mod_eq_of_lt hb2
    · rw [hkey _ (by unfold DolFile.SizeInfoLoc DolFile.MaxTextSections at *; omega)]
      rw [hfv.2.2]
      exact Nat.mod_eq_of_lt hb3
  · intro dj hdj
    have hsk : dol.textSections.length + dj < dol.sections.length := by omega
    have hklt : dol.textSections.length + dj - dol.textSections.length <
        dol.dataSections.length := by omega
    have hget0 : dol.sections.get ⟨dol.textSections.length + dj, hsk⟩ =
        dol.dataSections.get ⟨dol.textSections.length + dj - dol.textSections.length, hklt⟩ :=
      List.get_append_right dol.textSections dol.dataSections (by omega)
    have hgetk : dol.sections.get ⟨dol.textSections.length + dj, hsk⟩ =
        dol.dataSections.get ⟨dj, hdj⟩ :=
      hget0.trans (congrArg dol.dataSections.get (Fin.ext
        (show dol.textSections.length + dj - dol.textSections.length = dj by omega)))
    have hmem : dol.dataSections.get ⟨dj, hdj⟩ ∈ dol.sections :=
      List.mem_append.mpr (Or.inr (List.get_mem _ dj hdj))
    have hek : entryOf (dol.sections.get ⟨dol.textSections.length + dj, hsk⟩)
        (0 + (dol.textSections.length + dj)) dol.textSections.length = 7 + dj := by
      rw [entryOf_compute dol htT hdD _ hsk, if_neg (by omega)]
      unfold DolFile.MaxTextSections at *
      omega
    have hfv := saveSections_field_value dol.textSections.length dol.sections 0
      ((sink.seek 0).write (List.replicate dol.size 0))
      (dol.textSections.length + dj) hsk hdef hoff hent
      (fun k2 hk2 hne => huniqAll k2 _ hk2 hsk hne)
    rw [hek, hgetk] at hfv
    obtain ⟨hb1, hb2, hb3⟩ := hbound _ hmem
    refine ⟨?_, ?_, ?_⟩
    · rw [hkey _ (by unfold DolFile.OffsetInfoLoc DolFile.MaxDataSections at *; omega)]
      rw [hfv.1]
      exact Nat.mod_eq_of_lt hb1
    · rw [hkey _ (by unfold DolFile.AddressInfoLoc DolFile.MaxDataSections at *; omega)]
      rw [hfv.2.1]
      exact Nat.mod_eq_of_lt hb2
    · rw [hkey _ (by unfold DolFile.SizeInfoLoc DolFile.MaxDataSections at *; omega)]
      rw [hfv.2.2]
      exact Nat.mod_eq_of_lt hb3

/-- Witness for C8 on a container with one text and one data section: the
text triple lands in slot 0 and the data triple in slot 7. -/
theorem c8_witness :
    readOutU32 (dolC5.save freshSink 0).2 (DolFile.OffsetInfoLoc + 4 * 0) = secT1.offset ∧
    readOutU32 (dolC5.save freshSink 0).2 (DolFile.AddressInfoLoc + 4 * 0) = secT1.address ∧
    readOutU32 (dolC5.save freshSink 0).2 (DolFile.SizeInfoLoc + 4 * 0) = secT1.size ∧
    readOutU32 (dolC5.save freshSink 0).2 (DolFile.OffsetInfoLoc + 4 * (7 + 0)) = secD1.offset ∧
    readOutU32 (dolC5.save freshSink 0).2 (DolFile.AddressInfoLoc + 4 * (7 + 0)) = secD1.address ∧
    readOutU32 (dolC5.save freshSink 0).2 (DolFile.SizeInfoLoc + 4 * (7 + 0)) = secD1.size := by
  have h := c8_save_slot_layout dolC5 freshSink (by decide) (by decide)
    (by decide) (by decide) (by decide) (by decide)
  have h1 := h.1 0 (by decide)
  have h2 := h.2 0 (by decide)
  exact ⟨h1.1, h1.2.1, h1.2.2, h2.1, h2.2.1, h2.2.2⟩

/-- Witness for C2: the 0x104-byte concrete image round-trips; position
0x102 of the saved output equals byte 0x102 of the image. -/
theorem c2_witness :
    DolFile.load imgC2 0 = .ok dolC2 ∧
    secC2 ∈ dolC2.sections ∧
    (dolC2.save freshSink 0).1 = none ∧
    (dolC2.save freshSink 0).2.data 0x102 = imgC2.getD 0x102 0 := by
  have h := c2_load_save_segment_region imgC2 dolC2 freshSink secC2 0x102 rfl
    (by decide) (by decide) (by decide)
  exact ⟨rfl, by decide, h.1, h.2⟩

/-- A section left abstract (UNDEFINED kind), as produced by constructing a
bare Section: three bytes at address 0x80000100, file offset 0x100. -/
def secC9 : Section :=
  { sectionType := .UNDEFINED, address := 0x80000100,
    data := { buf := [1, 2, 3], pos := 0 }, offset := 0x100 }

/-- A container whose only section is the abstract secC9. -/
def dolC9 : DolFile :=
  { textSections := [secC9], dataSections := [],
    bssAddress := 0, bssSize := 0, entryPoint := 0x80000100,
    currLogicAddr := 0x80000100 }

/-- C9 (amended): if the section at combined index k is UNDEFINED and
every earlier section has a definite kind, save fails with
IncompleteSectionError naming index k — but only after the initial
zero-fill of the sink (and any earlier sections' writes), so the sink is
not left unmodified. -/
theorem c9_save_incomplete_section_amended (dol : DolFile) (sink : OStream) (k : Nat)
    (hk : k < dol.sections.length)
    (hundef : (dol.sections.get ⟨k, hk⟩).sectionType = .UNDEFINED)
    (hbefore : ∀ j, (hj : j < k) →
      (dol.sections.get ⟨j, by omega⟩).sectionType ≠ .UNDEFINED) :
    (dol.save sink 0).1 = some (.incompleteSectionError ("Section " ++ Nat.repr k
      ++ " is abstract, convert to DataSection or TextSection for saving")) := by
  unfold DolFile.save
  cases hsv : saveSections 0 dol.textSections.length dol.sections 0
      ((sink.seek 0).write (List.replicate dol.size 0)) with
  | mk o st =>
    have h1 := saveSections_first_undefined 0 dol.textSections.length dol.sections 0
      ((sink.seek 0).write (List.replicate dol.size 0)) k hk hundef hbefore
    rw [hsv] at h1
    simp only [Nat.zero_add] at h1
    rw [h1]

set_option maxRecDepth 4000 in
/-- Counterexample for C9: saving a container whose only section is
abstract does raise IncompleteSectionError, but the sink has already been
modified when the error is raised — its byte at position 0, previously
0xFF, has been zero-filled. -/
theorem c9_counterexample :
    (dolC9.save sinkFF 0).1 = some (.incompleteSectionError
      ("Section 0 is abstract, convert to DataSection or TextSection for saving")) ∧
    (dolC9.save sinkFF 0).2.data 0 = 0 ∧ sinkFF.data 0 = 0xFF := by
  refine ⟨rfl, rfl, rfl⟩

/-- Witness for the amended C9 statement at the concrete container. -/
theorem c9_witness :
    (dolC9.save freshSink 0).1 = some (.incompleteSectionError
      ("Section 0 is abstract, convert to DataSection or TextSection for saving")) :=
  c9_save_incomplete_section_amended dolC9 freshSink 0 (by decide) (by decide)
    (fun j hj => absurd hj (by omega))

/-- The container state read_c_string reaches after seeking to `address`
and consuming j bytes: the resolved section's buffer position and the
cursor have both advanced by j. -/
def rcsState (dol : DolFile) (i : Nat) (sec : Section) (address j : Nat) : DolFile :=
  { dol.setSection i { sec with data := ⟨sec.data.buf, address - sec.address + j⟩ } with
    currLogicAddr := address + j }

/-- A section whose buffer holds two ASCII bytes, an invalid byte 0xFF,
then a NUL terminator and padding. -/
def secC7 : Section :=
  { sectionType := .TEXT, address := 0x80003000,
    data := { buf := [0x61, 0x62, 0xFF, 0, 0, 0, 0, 0], pos := 0 }, offset := 0x100 }

/-- A container whose only section is secC7. -/
def dolC7 : DolFile :=
  { textSections := [secC7], dataSections := [],
    bssAddress := 0, bssSize := 0, entryPoint := 0x80003000,
    currLogicAddr := 0x80003000 }

theorem asciiDecode_single_ok (b : Nat) (h : b < 128) :
    asciiDecode [b] = some [Char.ofNat b] := by
  unfold asciiDecode
  rw [if_pos (by
    simp only [List.all_cons, List.all_nil, Bool.and_true]
    exact decide_eq_true h)]
  rfl

theorem asciiDecode_single_bad (b : Nat) (h : 128 ≤ b) :
    asciiDecode [b] = none := by
  unfold asciiDecode
  rw [if_neg (by
    simp only [List.all_cons, List.all_nil, Bool.and_true, decide_eq_true_eq]
    omega)]

theorem foldl_max_le_init (l : List Section) (init : Nat) :
    init ≤ l.foldl (fun m s => max m (s.address + s.size)) init := by
  induction l generalizing init with
  | nil => exact Nat.le_refl init
  | cons s rest ih =>
    exact Nat.le_trans (Nat.le_max_left _ _) (ih (max init (s.address + s.size)))

theorem mem_le_foldl_max (l : List Section) (s : Section) (hs : s ∈ l) (init : Nat) :
    s.address + s.size ≤ l.foldl (fun m t => max m (t.address + t.size)) init := by
  induction l generalizing init with
  | nil => cases hs
  | cons t rest ih =>
    cases hs with
    | head => exact Nat.le_trans (Nat.le_max_right _ _) (foldl_max_le_init _ _)
    | tail _ hmem => exact ih hmem _

theorem maxSectionEnd_mem (dol : DolFile) (s : Section) (h : s ∈ dol.sections) :
    s.address + s.size ≤ maxSectionEnd dol :=
  mem_le_foldl_max dol.sections s h 0

/-- One successful read(1) from the characterized mid-loop state returns
the next buffer byte and advances to the next characterized state. -/
theorem rcsState_read (dol : DolFile) (i : Nat) (sec : Section) (address j b : Nat)
    (rest2 : List Nat)
    (hres0 : findContaining dol.sections (address + j) = some (i, sec))
    (haddr : sec.address ≤ address)
    (hb : sec.data.buf.drop (address - sec.address + j) = b :: rest2) :
    (rcsState dol i sec address j).read 1 = .ok ([b], rcsState dol i sec address (j + 1)) := by
  have hsecs : (rcsState dol i sec address j).sections =
      dol.sections.set i { sec with data := ⟨sec.data.buf, address - sec.address + j⟩ } := by
    unfold rcsState
    rw [sections_ignore_curr, sections_setSection]
  have hfc : findContaining (rcsState dol i sec address j).sections (address + j) =
      some (i, { sec with data := ⟨sec.data.buf, address - sec.address + j⟩ }) := by
    rw [hsecs]
    exact findContaining_set dol.sections (address + j) i sec _ hres0 rfl rfl
  have hcurr : (rcsState dol i sec address j).currLogicAddr = address + j := rfl
  have hlen : address - sec.address + j < sec.data.buf.length := by
    have hdl := congrArg List.length hb
    simp only [List.length_drop, List.length_cons] at hdl
    omega
  have hnotover : ¬ (address + j + 1 > sec.address + sec.data.buf.length) := by omega
  have htake : (sec.data.buf.drop (address - sec.address + j)).take 1 = [b] := by
    rw [hb]
    rfl
  simp only [DolFile.read, hcurr, hfc, Section.size, if_neg hnotover, ByteStream.read]
  rw [htake]
  unfold rcsState
  rw [setSection_withCurr, setSection_setSection]
  rfl

/-- One loop iteration on a NUL-free valid ASCII byte appends the decoded
character and recurses (no maxlen cutoff yet). -/
theorem readCStringLoop_step (address maxlen fuel length : Nat) (d d2 : DolFile)
    (string : List Char) (b : Nat) (hread : d.read 1 = .ok ([b], d2))
    (hb0 : 0 < b) (hb7 : b < 128)
    (hcut : maxlen = 0 ∨ length + 1 ≤ maxlen - 1) :
    readCStringLoop address maxlen (fuel + 1) d length string =
      readCStringLoop address maxlen fuel d2 (length + 1) (string ++ [Char.ofNat b]) := by
  have hbne : ¬ (([b] : List Nat) = [0]) := by
    simp only [List.cons.injEq, and_true]
    omega
  have hdec := asciiDecode_single_ok b hb7
  simp only [readCStringLoop, hread]
  rw [if_neg hbne]
  simp only [hdec]
  rw [if_neg (by omega : ¬ (length + 1 > maxlen - 1 ∧ maxlen ≠ 0))]

/-- A loop iteration on an invalid byte (≥ 128) fails to decode: the
accumulated string minus its last character is returned with the report. -/
theorem readCStringLoop_fail (address maxlen fuel length : Nat) (d d2 : DolFile)
    (string : List Char) (b : Nat) (hread : d.read 1 = .ok ([b], d2))
    (hb : 128 ≤ b) :
    readCStringLoop address maxlen (fuel + 1) d length string =
      .ok ((string.dropLast,
        some { char := [b], pos := length, address := address + length }), d2) := by
  have hbne : ¬ (([b] : List Nat) = [0]) := by
    simp only [List.cons.injEq, and_true]
    omega
  have hdec := asciiDecode_single_bad b hb
  simp only [readCStringLoop, hread]
  rw [if_neg hbne]
  simp only [hdec]

/-- The read_c_string while loop, started at the characterized state with
j characters already consumed, on a buffer continuing with `valid` NUL-free
ASCII bytes and then an invalid byte: it returns the accumulated string
minus its last character together with the failure report. -/
theorem readCStringLoop_decode_fail (dol : DolFile) (i : Nat) (sec : Section)
    (address maxlen bad : Nat) (hbad : 128 ≤ bad) :
    ∀ (valid : List Nat) (j : Nat) (string : List Char) (rest : List Nat) (fuel : Nat),
    (∀ t, t ≤ valid.length → findContaining dol.sections (address + j + t) = some (i, sec)) →
    (∀ b ∈ valid, 0 < b ∧ b < 128) →
    sec.data.buf.drop (address - sec.address + j) = valid ++ bad :: rest →
    sec.address ≤ address →
    (maxlen = 0 ∨ j + valid.length ≤ maxlen - 1) →
    valid.length < fuel →
    readCStringLoop address maxlen fuel (rcsState dol i sec address j) j string =
      .ok (((string ++ valid.map Char.ofNat).dropLast,
        some { char := [bad], pos := j + valid.length,
               address := address + (j + valid.length) }),
        rcsState dol i sec address (j + valid.length + 1)) := by
  intro valid
  induction valid with
  | nil =>
    intro j string rest fuel hres hvalid hbytes haddr hmax hfuel
    cases fuel with
    | zero => omega
    | succ f =>
      have hread := rcsState_read dol i sec address j bad rest
        (by have h0 := hres 0 (by omega); rwa [Nat.add_zero] at h0)
        haddr (by simpa using hbytes)
      rw [readCStringLoop_fail address maxlen f j _ _ string bad hread hbad]
      simp only [List.length_nil, Nat.add_zero, List.map_nil, List.append_nil]
  | cons v vtl ih =>
    intro j string rest fuel hres hvalid hbytes haddr hmax hfuel
    cases fuel with
    | zero => omega
    | succ f =>
      have hv := hvalid v (List.mem_cons_self v vtl)
      have hread := rcsState_read dol i sec address j v (vtl ++ bad :: rest)
        (by have h0 := hres 0 (by omega); rwa [Nat.add_zero] at h0)
        haddr (by rw [hbytes]; rfl)
      rw [readCStringLoop_step address maxlen f j _ _ string v hread hv.1 hv.2
        (by rcases hmax with h | h
            · exact Or.inl h
            · right
              simp only [List.length_cons] at h
              omega)]
      have hihres : ∀ t, t ≤ vtl.length →
          findContaining dol.sections (address + (j + 1) + t) = some (i, sec) := by
        intro t ht
        have h1 := hres (t + 1) (by simp only [List.length_cons]; omega)
        rwa [show address + j + (t + 1) = address + (j + 1) + t by omega] at h1
      have hihbytes : sec.data.buf.drop (address - sec.address + (j + 1)) =
          vtl ++ bad :: rest := by
        have h2 : (sec.data.buf.drop (address - sec.address + j)).drop 1 =
            vtl ++ bad :: rest := by
          rw [hbytes]
          rfl
        rw [List.drop_drop] at h2
        exact h2
      have hih := ih (j + 1) (string ++ [Char.ofNat v]) rest f hihres
        (fun b hbm => hvalid b (List.mem_cons_of_mem v hbm)) hihbytes haddr
        (by rcases hmax with h | h
            · exact Or.inl h
            · right
              simp only [List.length_cons] at h
              omega)
        (by simp only [List.length_cons] at hfuel; omega)
      rw [hih]
      simp only [List.map_cons, List.length_cons]
      rw [List.append_cons string (Char.ofNat v) (List.map Char.ofNat vtl),
        show j + 1 + vtl.length = j + (vtl.length + 1) by omega]

/-- C7: a read_c_string that reaches an invalid (non-ASCII) byte before a
NUL does not abort: it returns a partial string and reports the failing
byte, its character position and its address — but the partial string is
the accumulated string MINUS ITS LAST validly decoded character
(string[:-1]), not the full valid prefix. -/
theorem c7_read_c_string_amended (dol : DolFile) (address maxlen : Nat)
    (i : Nat) (sec : Section) (valid : List Nat) (bad : Nat) (rest : List Nat)
    (hres : ∀ t, t ≤ valid.length →
      findContaining dol.sections (address + t) = some (i, sec))
    (hvalid : ∀ b ∈ valid, 0 < b ∧ b < 128)
    (hbad : 128 ≤ bad)
    (hbytes : sec.data.buf.drop (address - sec.address) = valid ++ bad :: rest)
    (hmax : maxlen = 0 ∨ valid.length ≤ maxlen - 1) :
    dol.read_c_string address maxlen =
      .ok (((valid.map Char.ofNat).dropLast,
        some { char := [bad], pos := valid.length, address := address + valid.length }),
        rcsState dol i sec address (valid.length + 1)) := by
  have hres0 := hres 0 (by omega)
  rw [Nat.add_zero] at hres0
  obtain ⟨hilen, hgetD, hcont, _⟩ := findContaining_some dol.sections address i sec hres0
  have haddr : sec.address ≤ address := by
    unfold sectionContains at hcont
    simp only [decide_eq_true_eq] at hcont
    exact hcont.1
  have hseek := seek_ok dol address i sec hres0
  unfold DolFile.read_c_string
  simp only [hseek]
  have hstate0 : ({ dol.setSection i
      { sec with data := sec.data.seek (address - sec.address) } with
      currLogicAddr := address } : DolFile) = rcsState dol i sec address 0 := by
    unfold rcsState ByteStream.seek
    rfl
  rw [hstate0]
  have hdl := congrArg List.length hbytes
  simp only [List.length_drop, List.length_append, List.length_cons] at hdl
  have hmem : ({ sec with data := (⟨sec.data.buf, address - sec.address + 0⟩ :
      ByteStream) } : Section) ∈ (rcsState dol i sec address 0).sections := by
    have hsecs : (rcsState dol i sec address 0).sections =
        dol.sections.set i
          { sec with data := ⟨sec.data.buf, address - sec.address + 0⟩ } := by
      unfold rcsState
      rw [sections_ignore_curr, sections_setSection]
    rw [hsecs]
    have hl : i < (dol.sections.set i
        { sec with data := ⟨sec.data.buf, address - sec.address + 0⟩ }).length := by
      rw [List.length_set]
      exact hilen
    have h1 : (dol.sections.set i
        { sec with data := ⟨sec.data.buf, address - sec.address + 0⟩ }).get ⟨i, hl⟩ =
        { sec with data := ⟨sec.data.buf, address - sec.address + 0⟩ } :=
      List.get_set_eq hl
    have h2 := List.get_mem (dol.sections.set i
      { sec with data := ⟨sec.data.buf, address - sec.address + 0⟩ }) i hl
    rwa [h1] at h2
  have hle := maxSectionEnd_mem (rcsState dol i sec address 0) _ hmem
  have hfuel : valid.length < maxSectionEnd (rcsState dol i sec address 0) + 1 := by
    have hsz : ({ sec with data := (⟨sec.data.buf, address - sec.address + 0⟩ :
        ByteStream) } : Section).size = sec.data.buf.length := rfl
    rw [hsz] at hle
    omega
  rw [readCStringLoop_decode_fail dol i sec address maxlen bad hbad valid 0 [] rest
    (maxSectionEnd (rcsState dol i sec address 0) + 1)
    (fun t ht => hres t ht) hvalid hbytes haddr
    (by rcases hmax with h | h
        · exact Or.inl h
        · exact Or.inr (by omega))
    hfuel]
  simp only [Nat.zero_add, List.nil_append]

/-- Counterexample for C7: the buffer holds bytes 0x61 0x62 0xFF …; both
0x61 and 0x62 decode (to characters a and b), yet read_c_string returns
only the one-character string [a] — string[:-1] drops the last validly
decoded character instead of truncating at it — together with the failure
report for byte 0xFF at position 2. -/
theorem c7_counterexample :
    (dolC7.read_c_string 0x80003000 0).map Prod.fst =
      .ok (([Char.ofNat 0x61],
        some { char := [0xFF], pos := 2, address := 0x80003002 })) ∧
    asciiDecode [0x61, 0x62] = some [Char.ofNat 0x61, Char.ofNat 0x62] :=
  ⟨rfl, rfl⟩

/-- Witness for the amended C7 statement on the concrete container. -/
theorem c7_witness :
    dolC7.read_c_string 0x80003000 0 =
      .ok (([Char.ofNat 0x61],
        some { char := [0xFF], pos := 2, address := 0x80003002 }),
        rcsState dolC7 0 secC7 0x80003000 3) :=
  c7_read_c_string_amended dolC7 0x80003000 0 0 secC7 [0x61, 0x62] 0xFF [0, 0, 0, 0, 0]
    (by decide) (by decide) (by decide) (by decide) (Or.inl rfl)

end Dol
